import Mathlib

/-!
# LRsplines: basis functions and mesh lines

A shallow embedding of `src/Basisfunction.cpp` and `src/Meshline.cpp`.

* C++ `double` is modelled by an arbitrary linearly ordered field `K` (exact
  arithmetic).  All definitions are computable for a computable field such as
  `ℚ`; the analytic statements instantiate `K := ℝ`.
* `int` orders and dimensions are natural numbers.
* The raw arrays `knot_u_`, `knot_v_`, `controlpoint_` are lists; a read
  `a[i]` is `a.getD i 0`.  The constructor allocates `order+1` knots, which the
  theorems state as `length = order + 1` where they need it.
* `Element*` and `Meshline*` are addresses (natural numbers); the elements
  themselves live in a heap `ElementPtr → Element K`.  The predicates of
  `Meshline` only read their argument and take the pointee.
* `enum parameterEdge` is declared in a header that is not part of the sources;
  its values are parameters (`ParameterEdge`).
-/

namespace LR

/-- Address of an `Element` object. -/
abbrev ElementPtr := Nat

/-- Address of a `Meshline` object. -/
abbrev MeshlinePtr := Nat

/-- The part of `Element` this core consults: its bounding box accessors. -/
structure Element (K : Type) where
  umin : K
  umax : K
  vmin : K
  vmax : K

/-- The fields of `class Basisfunction`. -/
structure Basisfunction (K : Type) where
  dim_ : Nat
  order_u_ : Nat
  order_v_ : Nat
  knot_u_ : List K
  knot_v_ : List K
  controlpoint_ : List K
  weight_ : K
  id_ : Int
  edge_index_ : Nat
  support_ : List ElementPtr
  partial_line_ : List MeshlinePtr

section Evaluate

variable {K : Type} [LinearOrderedField K]

/-- Array read `knot[i]`. -/
def knotAt (knot : List K) (i : Nat) : K := knot.getD i 0

/-- Degree-0 value of span `i`, lines 141-146:
`(knot[i] <= u && u < knot[i+1]) ? 1 : 0` from the right,
`(knot[i] < u && u <= knot[i+1]) ? 1 : 0` otherwise. -/
def initSpan (knot : List K) (u : K) (from_right : Bool) (i : Nat) : K :=
  if from_right then
    (if knotAt knot i ≤ u ∧ u < knotAt knot (i+1) then 1 else 0)
  else
    (if knotAt knot i < u ∧ u ≤ knotAt knot (i+1) then 1 else 0)

/-- The loop `for(int i=0; i<order; i++) ans[i] = ...` filling the fresh array `ans`. -/
def initAns (knot : List K) (order : Nat) (u : K) (from_right : Bool) : List K :=
  (List.range order).map (initSpan knot u from_right)

/-- First Cox-de Boor term, line 149:
`(knot[j+n]==knot[j]) ? 0 : (u-knot[j])/(knot[j+n]-knot[j])*a`. -/
def coxTerm1 (knot : List K) (u : K) (n j : Nat) (a : K) : K :=
  if knotAt knot (j+n) = knotAt knot j then 0
  else (u - knotAt knot j) / (knotAt knot (j+n) - knotAt knot j) * a

/-- Second Cox-de Boor term, line 150:
`(knot[j+n+1]==knot[j+1]) ? 0 : (knot[j+n+1]-u)/(knot[j+n+1]-knot[j+1])*a`. -/
def coxTerm2 (knot : List K) (u : K) (n j : Nat) (a : K) : K :=
  if knotAt knot (j+n+1) = knotAt knot (j+1) then 0
  else (knotAt knot (j+n+1) - u) / (knotAt knot (j+n+1) - knotAt knot (j+1)) * a

/-- Body of the inner loop, lines 149-150: `ans[j] = term1; ans[j] += term2`. -/
def coxUpdate (knot : List K) (u : K) (n : Nat) (ans : List K) (j : Nat) : List K :=
  let ans1 := ans.set j (coxTerm1 knot u n j (ans.getD j 0))
  ans1.set j (ans1.getD j 0 + coxTerm2 knot u n j (ans1.getD (j+1) 0))

/-- Inner loop `for(int j=0; j<order-n; j++)` at recursion level `n`. -/
def coxLevel (knot : List K) (order : Nat) (u : K) (ans : List K) (n : Nat) : List K :=
  (List.range (order - n)).foldl (coxUpdate knot u n) ans

/-- Outer loop `for(int n=1; n<order; n++)` run on the degree-0 values. -/
def coxDeBoor (knot : List K) (order : Nat) (u : K) (from_right : Bool) : List K :=
  (List.range' 1 (order - 1)).foldl (coxLevel knot order u) (initAns knot order u from_right)

/-- `double Basisfunction::evaluate(double u, double v, bool u_from_right, bool v_from_right)`,
lines 132-166. -/
def Basisfunction.evaluate (f : Basisfunction K) (u v : K)
    (u_from_right v_from_right : Bool) : K :=
  if knotAt f.knot_u_ 0 > u ∨ u > knotAt f.knot_u_ f.order_u_ then 0
  else if knotAt f.knot_v_ 0 > v ∨ v > knotAt f.knot_v_ f.order_v_ then 0
  else
    let ans_u := coxDeBoor f.knot_u_ f.order_u_ u u_from_right
    let ans_v := coxDeBoor f.knot_v_ f.order_v_ v v_from_right
    ans_u.getD 0 0 * ans_v.getD 0 0 * f.weight_

/-- First derivative term, lines 78 and 84:
`(knot[j+n]==knot[j]) ? 0 : c/(knot[j+n]-knot[j])*a`, with `c` the integer `n` or `order-1`. -/
def diffTerm1 (knot : List K) (c : K) (n j : Nat) (a : K) : K :=
  if knotAt knot (j+n) = knotAt knot j then 0
  else c / (knotAt knot (j+n) - knotAt knot j) * a

/-- Second derivative term, lines 79 and 85:
`(knot[j+n+1]==knot[j+1]) ? 0 : c/(knot[j+n+1]-knot[j+1])*a`. -/
def diffTerm2 (knot : List K) (c : K) (n j : Nat) (a : K) : K :=
  if knotAt knot (j+n+1) = knotAt knot (j+1) then 0
  else c / (knotAt knot (j+n+1) - knotAt knot (j+1)) * a

/-- Body of the loop of lines 77-80: `diff_2[j] = term1; diff_2[j] -= term2`. -/
def diff2Update (knot : List K) (n : Nat) (d : List K) (j : Nat) : List K :=
  let d1 := d.set j (diffTerm1 knot (n : K) n j (d.getD j 0))
  d1.set j (d1.getD j 0 - diffTerm2 knot (n : K) n j (d1.getD (j+1) 0))

/-- The locals of one parametric direction of the derivative evaluation:
`ans`, `diff` and the three-entry buffer `diff_2`. -/
structure DirState (K : Type) where
  ans : List K
  diff : K
  diff_2 : List K

/-- One pass of the loop `for(int n=1; n<order; n++)` of lines 72-91 (99-118 for `v`):
the copy into `diff_2` when `n == order-2`, the `diff_2` update when `n >= order-2`,
the first derivative when `n == order-1`, then the Cox-de Boor update of `ans`. -/
def derivLevel (knot : List K) (order : Nat) (u : K) (s : DirState K) (n : Nat) : DirState K :=
  let d2a := if n + 2 = order then
      (List.range (order - n + 1)).foldl (fun d j => d.set j (s.ans.getD j 0)) s.diff_2
    else s.diff_2
  let d2b := if n + 2 ≥ order then (List.range (order - n)).foldl (diff2Update knot n) d2a
    else d2a
  let diff := if n + 1 = order then
      diffTerm1 knot ((order - 1 : Nat) : K) n 0 (s.ans.getD 0 0)
        - diffTerm2 knot ((order - 1 : Nat) : K) n 0 (s.ans.getD 1 0)
    else s.diff
  { ans := coxLevel knot order u s.ans n, diff := diff, diff_2 := d2b }

/-- The whole computation of one direction, lines 58-91 (or 59-118 for `v`).  The array
`diff_2` is declared without initialiser: `junk` is what the three slots hold on entry. -/
def derivDir (knot : List K) (order : Nat) (u : K) (from_right : Bool) (junk : Fin 3 → K) :
    DirState K :=
  (List.range' 1 (order - 1)).foldl (derivLevel knot order u)
    { ans := initAns knot order u from_right, diff := 0, diff_2 := [junk 0, junk 1, junk 2] }

/-- `results.resize(n)`: truncate, or pad with value-initialised entries. -/
def resize (results : List K) (n : Nat) : List K :=
  results.take n ++ List.replicate (n - results.length) 0

/-- `fill(results.begin(), results.end(), 0)`. -/
def fillZero (results : List K) : List K := results.map (fun _ => 0)

end Evaluate

/-- The fatal exits of the evaluation; `divisionByZero` is raised only by the instrumented
evaluators below, which check every denominator. -/
inductive EvalError where
  | derivsNotImplemented
  | divisionByZero
  deriving DecidableEq

section EvaluateDerivs

variable {K : Type} [LinearOrderedField K]

/-- `void Basisfunction::evaluate(std::vector<double> &results, double u, double v, int derivs,
bool u_from_right, bool v_from_right)`, lines 46-130.  `results` is the vector on entry, the
returned list is the vector on exit; `exit(325)` is `Except.error`.  `junk_u`, `junk_v` are the
indeterminate initial contents of `diff_2u`, `diff_2v`. -/
def Basisfunction.evaluateDerivs (f : Basisfunction K) (junk_u junk_v : Fin 3 → K)
    (results : List K) (u v : K) (derivs : Nat) (u_from_right v_from_right : Bool) :
    Except EvalError (List K) :=
  if derivs > 2 then Except.error EvalError.derivsNotImplemented
  else
    let r0 := fillZero (resize results ((derivs+1)*(derivs+2)/2))
    if knotAt f.knot_u_ 0 > u ∨ u > knotAt f.knot_u_ f.order_u_ then Except.ok r0
    else if knotAt f.knot_v_ 0 > v ∨ v > knotAt f.knot_v_ f.order_v_ then Except.ok r0
    else
      let su := derivDir f.knot_u_ f.order_u_ u u_from_right junk_u
      let sv := derivDir f.knot_v_ f.order_v_ v v_from_right junk_v
      let r1 := r0.set 0 (su.ans.getD 0 0 * sv.ans.getD 0 0 * f.weight_)
      let r2 := if derivs > 0 then
          (r1.set 1 (su.diff * sv.ans.getD 0 0 * f.weight_)).set 2
            (su.ans.getD 0 0 * sv.diff * f.weight_)
        else r1
      let r3 := if derivs > 1 then
          ((r2.set 3 (su.diff_2.getD 0 0 * sv.ans.getD 0 0 * f.weight_)).set 4
            (su.diff * sv.diff * f.weight_)).set 5
            (su.ans.getD 0 0 * sv.diff_2.getD 0 0 * f.weight_)
        else r2
      Except.ok r3

end EvaluateDerivs

section Checked

variable {K : Type} [LinearOrderedField K]

/-- Division with a checked denominator: `a / b`, or the `divisionByZero` error when `b` is
zero.  The instrumented evaluators below are the two `evaluate` functions with every `/`
replaced by this. -/
def checkedDiv (a b : K) : Except EvalError K :=
  if b = 0 then Except.error EvalError.divisionByZero else Except.ok (a / b)

/-- Line 149 with the division checked. -/
def coxTerm1Checked (knot : List K) (u : K) (n j : Nat) (a : K) : Except EvalError K :=
  if knotAt knot (j+n) = knotAt knot j then pure 0
  else do
    let q ← checkedDiv (u - knotAt knot j) (knotAt knot (j+n) - knotAt knot j)
    pure (q * a)

/-- Line 150 with the division checked. -/
def coxTerm2Checked (knot : List K) (u : K) (n j : Nat) (a : K) : Except EvalError K :=
  if knotAt knot (j+n+1) = knotAt knot (j+1) then pure 0
  else do
    let q ← checkedDiv (knotAt knot (j+n+1) - u) (knotAt knot (j+n+1) - knotAt knot (j+1))
    pure (q * a)

/-- Lines 149-150 with the divisions checked. -/
def coxUpdateChecked (knot : List K) (u : K) (n : Nat) (ans : List K) (j : Nat) :
    Except EvalError (List K) := do
  let t1 ← coxTerm1Checked knot u n j (ans.getD j 0)
  let ans1 := ans.set j t1
  let t2 ← coxTerm2Checked knot u n j (ans1.getD (j+1) 0)
  pure (ans1.set j (ans1.getD j 0 + t2))

/-- The inner loop over `j` with the divisions checked. -/
def coxLevelChecked (knot : List K) (order : Nat) (u : K) (ans : List K) (n : Nat) :
    Except EvalError (List K) :=
  (List.range (order - n)).foldlM (coxUpdateChecked knot u n) ans

/-- The outer loop over `n` with the divisions checked. -/
def coxDeBoorChecked (knot : List K) (order : Nat) (u : K) (from_right : Bool) :
    Except EvalError (List K) :=
  (List.range' 1 (order - 1)).foldlM (coxLevelChecked knot order u)
    (initAns knot order u from_right)

/-- The scalar `evaluate`, lines 132-166, with every division checked. -/
def Basisfunction.evaluateChecked (f : Basisfunction K) (u v : K)
    (u_from_right v_from_right : Bool) : Except EvalError K :=
  if knotAt f.knot_u_ 0 > u ∨ u > knotAt f.knot_u_ f.order_u_ then pure 0
  else if knotAt f.knot_v_ 0 > v ∨ v > knotAt f.knot_v_ f.order_v_ then pure 0
  else do
    let ans_u ← coxDeBoorChecked f.knot_u_ f.order_u_ u u_from_right
    let ans_v ← coxDeBoorChecked f.knot_v_ f.order_v_ v v_from_right
    pure (ans_u.getD 0 0 * ans_v.getD 0 0 * f.weight_)

/-- Lines 78 and 84 with the division checked. -/
def diffTerm1Checked (knot : List K) (c : K) (n j : Nat) (a : K) : Except EvalError K :=
  if knotAt knot (j+n) = knotAt knot j then pure 0
  else do
    let q ← checkedDiv c (knotAt knot (j+n) - knotAt knot j)
    pure (q * a)

/-- Lines 79 and 85 with the division checked. -/
def diffTerm2Checked (knot : List K) (c : K) (n j : Nat) (a : K) : Except EvalError K :=
  if knotAt knot (j+n+1) = knotAt knot (j+1) then pure 0
  else do
    let q ← checkedDiv c (knotAt knot (j+n+1) - knotAt knot (j+1))
    pure (q * a)

/-- Lines 78-79 with the divisions checked. -/
def diff2UpdateChecked (knot : List K) (n : Nat) (d : List K) (j : Nat) :
    Except EvalError (List K) := do
  let t1 ← diffTerm1Checked knot (n : K) n j (d.getD j 0)
  let d1 := d.set j t1
  let t2 ← diffTerm2Checked knot (n : K) n j (d1.getD (j+1) 0)
  pure (d1.set j (d1.getD j 0 - t2))

/-- One pass of the loop over `n` of the derivative evaluation, divisions checked. -/
def derivLevelChecked (knot : List K) (order : Nat) (u : K) (s : DirState K) (n : Nat) :
    Except EvalError (DirState K) := do
  let d2a := if n + 2 = order then
      (List.range (order - n + 1)).foldl (fun d j => d.set j (s.ans.getD j 0)) s.diff_2
    else s.diff_2
  let d2b ← if n + 2 ≥ order then (List.range (order - n)).foldlM (diff2UpdateChecked knot n) d2a
    else pure d2a
  let diff ← if n + 1 = order then do
      let t1 ← diffTerm1Checked knot ((order - 1 : Nat) : K) n 0 (s.ans.getD 0 0)
      let t2 ← diffTerm2Checked knot ((order - 1 : Nat) : K) n 0 (s.ans.getD 1 0)
      pure (t1 - t2)
    else pure s.diff
  let ans ← coxLevelChecked knot order u s.ans n
  pure { ans := ans, diff := diff, diff_2 := d2b }

/-- The computation of one direction of the derivative evaluation, divisions checked. -/
def derivDirChecked (knot : List K) (order : Nat) (u : K) (from_right : Bool)
    (junk : Fin 3 → K) : Except EvalError (DirState K) :=
  (List.range' 1 (order - 1)).foldlM (derivLevelChecked knot order u)
    { ans := initAns knot order u from_right, diff := 0, diff_2 := [junk 0, junk 1, junk 2] }

/-- The derivative `evaluate`, lines 46-130, with every division checked. -/
def Basisfunction.evaluateDerivsChecked (f : Basisfunction K) (junk_u junk_v : Fin 3 → K)
    (results : List K) (u v : K) (derivs : Nat) (u_from_right v_from_right : Bool) :
    Except EvalError (List K) :=
  if derivs > 2 then Except.error EvalError.derivsNotImplemented
  else
    let r0 := fillZero (resize results ((derivs+1)*(derivs+2)/2))
    if knotAt f.knot_u_ 0 > u ∨ u > knotAt f.knot_u_ f.order_u_ then Except.ok r0
    else if knotAt f.knot_v_ 0 > v ∨ v > knotAt f.knot_v_ f.order_v_ then Except.ok r0
    else do
      let su ← derivDirChecked f.knot_u_ f.order_u_ u u_from_right junk_u
      let sv ← derivDirChecked f.knot_v_ f.order_v_ v v_from_right junk_v
      let r1 := r0.set 0 (su.ans.getD 0 0 * sv.ans.getD 0 0 * f.weight_)
      let r2 := if derivs > 0 then
          (r1.set 1 (su.diff * sv.ans.getD 0 0 * f.weight_)).set 2
            (su.ans.getD 0 0 * sv.diff * f.weight_)
        else r1
      let r3 := if derivs > 1 then
          ((r2.set 3 (su.diff_2.getD 0 0 * sv.ans.getD 0 0 * f.weight_)).set 4
            (su.diff * sv.diff * f.weight_)).set 5
            (su.ans.getD 0 0 * sv.diff_2.getD 0 0 * f.weight_)
        else r2
      pure r3

end Checked

section Support

variable {K : Type} [LinearOrderedField K]

/-- `bool Basisfunction::overlaps(Element *el) const`, lines 227-232. -/
def Basisfunction.overlaps (f : Basisfunction K) (heap : ElementPtr → Element K)
    (el : ElementPtr) : Bool :=
  decide (knotAt f.knot_u_ 0 < (heap el).umax) &&
  decide (knotAt f.knot_u_ f.order_u_ > (heap el).umin) &&
  decide (knotAt f.knot_v_ 0 < (heap el).vmax) &&
  decide (knotAt f.knot_v_ f.order_v_ > (heap el).vmin)

/-- `bool Basisfunction::addSupport(Element *el)`, lines 217-225: the returned flag and the
basis function after the call. -/
def Basisfunction.addSupport (f : Basisfunction K) (heap : ElementPtr → Element K)
    (el : ElementPtr) : Bool × Basisfunction K :=
  if f.overlaps heap el then (true, { f with support_ := f.support_ ++ [el] })
  else (false, f)

/-- The loop of `removeSupport`, lines 203-209, from index `i` on: at the first `i` with
`el == support_[i]` do `support_[i] = support_.back(); support_.pop_back(); break`. -/
def removeSupportLoop (el : ElementPtr) (support : List ElementPtr) (i : Nat) :
    List ElementPtr :=
  if h : i < support.length then
    if el = support.get ⟨i, h⟩ then
      (support.set i (support.getLast (List.ne_nil_of_length_pos (by omega)))).dropLast
    else removeSupportLoop el support (i+1)
  else support
termination_by support.length - i

/-- `bool Basisfunction::removeSupport(Element *el)`, lines 202-215: the returned flag (always
`false`) and the basis function after the call. -/
def Basisfunction.removeSupport (f : Basisfunction K) (el : ElementPtr) :
    Bool × Basisfunction K :=
  (false, { f with support_ := removeSupportLoop el f.support_ 0 })

/-- A call of one of the two support mutators. -/
inductive SupportCall where
  | add (el : ElementPtr)
  | remove (el : ElementPtr)

/-- The basis function after one support call (the returned flag is dropped). -/
def applyCall (heap : ElementPtr → Element K) (f : Basisfunction K) :
    SupportCall → Basisfunction K
  | SupportCall.add el => (f.addSupport heap el).2
  | SupportCall.remove el => (f.removeSupport el).2

/-- The basis function after a sequence of support calls, executed left to right. -/
def runCalls (heap : ElementPtr → Element K) (f : Basisfunction K)
    (calls : List SupportCall) : Basisfunction K :=
  calls.foldl (applyCall heap) f

/-- `void Basisfunction::operator+=(const Basisfunction &other)`, lines 270-275. -/
def Basisfunction.addAssign (f other : Basisfunction K) : Basisfunction K :=
  let newWeight := f.weight_ + other.weight_
  let cp := (List.range f.dim_).foldl
    (fun cp i => cp.set i
      ((cp.getD i 0 * f.weight_ + other.controlpoint_.getD i 0 * other.weight_) / newWeight))
    f.controlpoint_
  { f with controlpoint_ := cp, weight_ := newWeight }

end Support

/-- The basis function of the corner test: order 4 in both directions, knots
`[0,0,0,0,1] x [0,0,0,0,1]`, weight 1. -/
def cornerFunction : Basisfunction ℚ :=
  { dim_ := 2, order_u_ := 4, order_v_ := 4,
    knot_u_ := [0,0,0,0,1], knot_v_ := [0,0,0,0,1],
    controlpoint_ := [0,0], weight_ := 1, id_ := -1, edge_index_ := 0,
    support_ := [], partial_line_ := [] }

/-- A basis function with knots `[0,1,2,3] x [0,1,2,3]` (order 3), the given control point
and weight. -/
def mergeFunction (cp : List ℚ) (w : ℚ) : Basisfunction ℚ :=
  { dim_ := 2, order_u_ := 3, order_v_ := 3,
    knot_u_ := [0,1,2,3], knot_v_ := [0,1,2,3],
    controlpoint_ := cp, weight_ := w, id_ := -1, edge_index_ := 0,
    support_ := [], partial_line_ := [] }

/-- A heap in which every address holds the element `[0,1] x [0,1]`. -/
def unitHeap : ElementPtr → Element ℚ := fun _ => { umin := 0, umax := 1, vmin := 0, vmax := 1 }

/-- List-recursive form of the loop of `removeSupport`, used in the proofs only: the first
entry equal to `el` is overwritten by `last`, then the final entry is dropped. -/
def swapPop (el last : ElementPtr) : List ElementPtr → List ElementPtr
  | [] => []
  | x :: xs => if el = x then (last :: xs).dropLast else x :: swapPop el last xs

/-- The hat function: order 2 in both directions, knots `[0,1,2] x [0,1,2]`, weight 1. -/
def hatFunction (K : Type) [LinearOrderedField K] : Basisfunction K :=
  { dim_ := 2, order_u_ := 2, order_v_ := 2,
    knot_u_ := [0,1,2], knot_v_ := [0,1,2],
    controlpoint_ := [0,0], weight_ := 1, id_ := -1, edge_index_ := 0,
    support_ := [], partial_line_ := [] }

section SplineSpec

variable {K : Type} [LinearOrderedField K]

/-- The Cox-de Boor recursion as a function of degree `n` and first knot index `j`, used in
the proofs to name what the in-place loop holds in `ans[j]` after pass `n`. -/
def bspline (knot : List K) (u : K) (from_right : Bool) : Nat → Nat → K
  | 0, j => initSpan knot u from_right j
  | n+1, j => coxTerm1 knot u (n+1) j (bspline knot u from_right n j)
      + coxTerm2 knot u (n+1) j (bspline knot u from_right n (j+1))

/-- The difference quotient of lines 84-85 for degree `n` and first knot index `j`, used in
the proofs to name the derivative of `bspline`. -/
def dBspline (knot : List K) (u : K) (from_right : Bool) : Nat → Nat → K
  | 0, _ => 0
  | n+1, j => diffTerm1 knot ((n+1 : Nat) : K) (n+1) j (bspline knot u from_right n j)
      - diffTerm2 knot ((n+1 : Nat) : K) (n+1) j (bspline knot u from_right n (j+1))

end SplineSpec

/-- The fields of `class Meshline`. -/
structure Meshline (K : Type) where
  span_u_line_ : Bool
  const_par_ : K
  start_ : K
  stop_ : K
  multiplicity_ : Int

/-- The values of `enum parameterEdge`.  The enum is declared in `Basisfunction.h`, which is
not among the source files, so the values are parameters of `inheritEdgeTag`. -/
structure ParameterEdge where
  NONE : Nat
  WEST : Nat
  EAST : Nat
  SOUTH : Nat
  NORTH : Nat

section MeshlineOps

variable {K : Type} [LinearOrderedField K]

/-- `#define DOUBLE_TOL 1e-14`. -/
def DOUBLE_TOL : K := 1 / 10 ^ 14

/-- `#define MY_STUPID_FABS(x) (((x)>0)?(x):-(x))`. -/
def MY_STUPID_FABS (x : K) : K := if x > 0 then x else -x

/-- `bool Meshline::containedIn(Basisfunction *basis) const`, lines 64-75: each loop returns
`true` at the first knot within the tolerance. -/
def Meshline.containedIn (l : Meshline K) (basis : Basisfunction K) : Bool :=
  if l.span_u_line_ then
    (List.range (basis.order_v_ + 1)).any
      (fun i => decide (MY_STUPID_FABS (knotAt basis.knot_v_ i - l.const_par_) < DOUBLE_TOL))
  else
    (List.range (basis.order_u_ + 1)).any
      (fun i => decide (MY_STUPID_FABS (knotAt basis.knot_u_ i - l.const_par_) < DOUBLE_TOL))

/-- `bool Meshline::touches(Element *el) const`, lines 77-88. -/
def Meshline.touchesElement (l : Meshline K) (el : Element K) : Bool :=
  if l.span_u_line_ then
    decide (el.vmin < l.const_par_ ∧ l.const_par_ < el.vmax ∧
      (l.start_ = el.umax ∨ el.umin = l.stop_))
  else
    decide (el.umin < l.const_par_ ∧ l.const_par_ < el.umax ∧
      (l.start_ = el.vmax ∨ el.vmin = l.stop_))

/-- `bool Meshline::splits(Element *el) const`, lines 90-101. -/
def Meshline.splitsElement (l : Meshline K) (el : Element K) : Bool :=
  if l.span_u_line_ then
    decide (el.vmin < l.const_par_ ∧ l.const_par_ < el.vmax ∧
      l.start_ ≤ el.umin ∧ el.umax ≤ l.stop_)
  else
    decide (el.umin < l.const_par_ ∧ l.const_par_ < el.umax ∧
      l.start_ ≤ el.vmin ∧ el.vmax ≤ l.stop_)

/-- `bool Meshline::touches(Basisfunction *basis) const`, lines 103-114. -/
def Meshline.touches (l : Meshline K) (basis : Basisfunction K) : Bool :=
  if l.span_u_line_ then
    decide (knotAt basis.knot_v_ 0 < l.const_par_ ∧
      l.const_par_ < knotAt basis.knot_v_ basis.order_v_ ∧
      (l.start_ < knotAt basis.knot_u_ basis.order_u_ ∨ knotAt basis.knot_u_ 0 < l.stop_))
  else
    decide (knotAt basis.knot_u_ 0 < l.const_par_ ∧
      l.const_par_ < knotAt basis.knot_u_ basis.order_u_ ∧
      (l.start_ < knotAt basis.knot_v_ basis.order_v_ ∨ knotAt basis.knot_v_ 0 < l.stop_))

/-- `bool Meshline::splits(Basisfunction *basis) const`, lines 116-127. -/
def Meshline.splits (l : Meshline K) (basis : Basisfunction K) : Bool :=
  if l.span_u_line_ then
    decide (knotAt basis.knot_v_ 0 < l.const_par_ ∧
      l.const_par_ < knotAt basis.knot_v_ basis.order_v_ ∧
      l.start_ ≤ knotAt basis.knot_u_ 0 ∧ knotAt basis.knot_u_ basis.order_u_ ≤ l.stop_)
  else
    decide (knotAt basis.knot_u_ 0 < l.const_par_ ∧
      l.const_par_ < knotAt basis.knot_u_ basis.order_u_ ∧
      l.start_ ≤ knotAt basis.knot_v_ 0 ∧ knotAt basis.knot_v_ basis.order_v_ ≤ l.stop_)

/-- `void Basisfunction::inheritEdgeTag(Basisfunction *f, bool verticalSplit,
bool minorFunction)`, lines 241-258: the child (`this`) after the call; `f` is the parent. -/
def Basisfunction.inheritEdgeTag (pe : ParameterEdge) (child f : Basisfunction K)
    (verticalSplit minorFunction : Bool) : Basisfunction K :=
  let prevEdge := f.edge_index_
  if verticalSplit then
    let e1 := child.edge_index_ ||| (prevEdge &&& pe.EAST)
    let e2 := e1 ||| (prevEdge &&& pe.WEST)
    if minorFunction then { child with edge_index_ := e2 ||| (prevEdge &&& pe.SOUTH) }
    else { child with edge_index_ := e2 ||| (prevEdge &&& pe.NORTH) }
  else
    let e1 := child.edge_index_ ||| (prevEdge &&& pe.NORTH)
    let e2 := e1 ||| (prevEdge &&& pe.SOUTH)
    if minorFunction then { child with edge_index_ := e2 ||| (prevEdge &&& pe.WEST) }
    else { child with edge_index_ := e2 ||| (prevEdge &&& pe.EAST) }

/-- `bool Basisfunction::operator==(const Basisfunction &other) const`, lines 260-268: each
loop returns `false` at the first index where the knots differ. -/
def Basisfunction.equals (f other : Basisfunction K) : Bool :=
  if (List.range (f.order_u_ + 1)).any
      (fun i => decide (knotAt f.knot_u_ i ≠ knotAt other.knot_u_ i)) then false
  else if (List.range (f.order_v_ + 1)).any
      (fun i => decide (knotAt f.knot_v_ i ≠ knotAt other.knot_v_ i)) then false
  else true

end MeshlineOps

/-- The element `[0,1] x [0,1]`. -/
def unitElement : Element ℚ := { umin := 0, umax := 1, vmin := 0, vmax := 1 }

/-- A basis function of order 3 in both directions with the knots `[0, 1/2, 1, 3/2]` in both
directions. -/
def halfKnotFunction : Basisfunction ℚ :=
  { dim_ := 2, order_u_ := 3, order_v_ := 3,
    knot_u_ := [0, 1/2, 1, 3/2], knot_v_ := [0, 1/2, 1, 3/2],
    controlpoint_ := [0,0], weight_ := 1, id_ := -1, edge_index_ := 0,
    support_ := [], partial_line_ := [] }

/-- One assignment of distinct bits to the edges, used for concrete instances. -/
def edgeBits : ParameterEdge := { NONE := 0, WEST := 1, EAST := 2, SOUTH := 4, NORTH := 8 }

section Tracked

variable {K : Type} [LinearOrderedField K]

/-- A read of `diff_2[j]` in a buffer whose slots hold `none` until they are assigned: `none`
when the slot is unassigned or lies outside the buffer. -/
def readSlot (d : List (Option K)) (j : Nat) : Option K := (d.get? j).join

/-- A write `diff_2[j] = x`: `none` when the slot lies outside the buffer. -/
def writeSlot (d : List (Option K)) (j : Nat) (x : K) : Option (List (Option K)) :=
  if j < d.length then some (d.set j (some x)) else none

/-- Line 75, `diff_2[j] = ans[j]`, with the read of `ans[j]` checked against the length of
`ans` and the write checked against the length of the buffer. -/
def copyTracked (ans : List K) (d : List (Option K)) (j : Nat) : Option (List (Option K)) := do
  let x ← ans.get? j
  writeSlot d j x

/-- Lines 78-79 on a tracked buffer: a slot is read only in the branch of the conditional
that uses it, and the compound assignment `-=` reads the slot it updates. -/
def diff2UpdateTracked (knot : List K) (n : Nat) (d : List (Option K)) (j : Nat) :
    Option (List (Option K)) := do
  let t1 ← (if knotAt knot (j+n) = knotAt knot j then some 0
    else (readSlot d j).map (diffTerm1 knot (n : K) n j))
  let d1 ← writeSlot d j t1
  let t2 ← (if knotAt knot (j+n+1) = knotAt knot (j+1) then some 0
    else (readSlot d1 (j+1)).map (diffTerm2 knot (n : K) n j))
  let x ← readSlot d1 j
  writeSlot d1 j (x - t2)

/-- The locals of one direction with a tracked `diff_2` buffer. -/
structure TrackedState (K : Type) where
  ans : List K
  diff : K
  diff_2 : List (Option K)

/-- The state of one direction seen as a tracked state in which every slot of `diff_2` is
assigned; used in the proofs to compare the two evaluations. -/
def DirState.track (s : DirState K) : TrackedState K :=
  { ans := s.ans, diff := s.diff, diff_2 := s.diff_2.map some }

/-- One pass of the loop over `n` (lines 72-91) with the accesses to `diff_2` tracked; `none`
when the pass reads an unassigned slot or leaves an array. -/
def derivLevelTracked (knot : List K) (order : Nat) (u : K) (s : TrackedState K) (n : Nat) :
    Option (TrackedState K) := do
  let d2a ← (if n + 2 = order then
      (List.range (order - n + 1)).foldlM (copyTracked s.ans) s.diff_2
    else some s.diff_2)
  let d2b ← (if n + 2 ≥ order then
      (List.range (order - n)).foldlM (diff2UpdateTracked knot n) d2a
    else some d2a)
  let diff := if n + 1 = order then
      diffTerm1 knot ((order - 1 : Nat) : K) n 0 (s.ans.getD 0 0)
        - diffTerm2 knot ((order - 1 : Nat) : K) n 0 (s.ans.getD 1 0)
    else s.diff
  some { ans := coxLevel knot order u s.ans n, diff := diff, diff_2 := d2b }

/-- The computation of one direction with `diff_2` tracked: its three slots start
unassigned. -/
def derivDirTracked (knot : List K) (order : Nat) (u : K) (from_right : Bool) :
    Option (TrackedState K) :=
  (List.range' 1 (order - 1)).foldlM (derivLevelTracked knot order u)
    { ans := initAns knot order u from_right, diff := 0, diff_2 := [none, none, none] }

/-- The derivative `evaluate`, lines 46-130, with the accesses to `diff_2u` and `diff_2v`
tracked: `none` when the call reads a slot that was never assigned (or leaves an array),
`some` of the outcome of the call otherwise. -/
def Basisfunction.evaluateDerivsTracked (f : Basisfunction K) (results : List K) (u v : K)
    (derivs : Nat) (u_from_right v_from_right : Bool) : Option (Except EvalError (List K)) :=
  if derivs > 2 then some (Except.error EvalError.derivsNotImplemented)
  else
    let r0 := fillZero (resize results ((derivs+1)*(derivs+2)/2))
    if knotAt f.knot_u_ 0 > u ∨ u > knotAt f.knot_u_ f.order_u_ then some (Except.ok r0)
    else if knotAt f.knot_v_ 0 > v ∨ v > knotAt f.knot_v_ f.order_v_ then some (Except.ok r0)
    else do
      let su ← derivDirTracked f.knot_u_ f.order_u_ u u_from_right
      let sv ← derivDirTracked f.knot_v_ f.order_v_ v v_from_right
      let r1 := r0.set 0 (su.ans.getD 0 0 * sv.ans.getD 0 0 * f.weight_)
      let r2 := if derivs > 0 then
          (r1.set 1 (su.diff * sv.ans.getD 0 0 * f.weight_)).set 2
            (su.ans.getD 0 0 * sv.diff * f.weight_)
        else r1
      if derivs > 1 then do
        let d2u ← readSlot su.diff_2 0
        let d2v ← readSlot sv.diff_2 0
        some (Except.ok (((r2.set 3 (d2u * sv.ans.getD 0 0 * f.weight_)).set 4
          (su.diff * sv.diff * f.weight_)).set 5 (su.ans.getD 0 0 * d2v * f.weight_)))
      else some (Except.ok r2)

end Tracked

/-! ## Auxiliary lemmas -/

section Lemmas

variable {K : Type} [LinearOrderedField K]

theorem fillZero_resize (results : List K) (n : Nat) :
    fillZero (resize results n) = List.replicate n 0 := by
  apply List.ext_getElem
  · simp [fillZero, resize]; omega
  · intro i h1 h2
    simp [fillZero]

/-- The component loop of `operator+=` keeps the length of the control point. -/
theorem foldl_set_length (g : Nat → K → K) (cp : List K) (m : Nat) :
    ((List.range m).foldl (fun c j => c.set j (g j (c.getD j 0))) cp).length = cp.length := by
  induction m with
  | zero => simp
  | succ m ihm =>
    rw [List.range_succ, List.foldl_append]
    simp only [List.foldl_cons, List.foldl_nil, List.length_set]
    exact ihm

/-- What the component loop of `operator+=` leaves in slot `i` after `n` passes. -/
theorem foldl_set_getD (g : Nat → K → K) (n : Nat) (cp : List K) (i : Nat)
    (hi : i < cp.length) :
    ((List.range n).foldl (fun c j => c.set j (g j (c.getD j 0))) cp).getD i 0
      = if i < n then g i (cp.getD i 0) else cp.getD i 0 := by
  induction n with
  | zero => simp
  | succ n ih =>
    rw [List.range_succ, List.foldl_append]
    simp only [List.foldl_cons, List.foldl_nil]
    have hlen := foldl_set_length g cp
    by_cases h : i = n
    · subst h
      have h1 : i < ((List.range i).foldl (fun c j => c.set j (g j (c.getD j 0))) cp).length := by
        rw [hlen]; exact hi
      rw [List.getD_eq_getElem?_getD, List.getElem?_set_self h1]
      simp only [Option.getD_some]
      rw [ih]; simp
    · rw [List.getD_eq_getElem?_getD, List.getElem?_set_ne (Ne.symm h),
        ← List.getD_eq_getElem?_getD, ih]
      by_cases h2 : i < n
      · simp [h2, Nat.lt_succ_of_lt h2]
      · have h3 : ¬ i < n + 1 := by omega
        simp [h2, h3]

theorem checkedDiv_of_ne (a b : K) (h : b ≠ 0) : checkedDiv a b = Except.ok (a / b) := by
  unfold checkedDiv; rw [if_neg h]

theorem coxTerm1Checked_eq (knot : List K) (u : K) (n j : Nat) (a : K) :
    coxTerm1Checked knot u n j a = Except.ok (coxTerm1 knot u n j a) := by
  unfold coxTerm1Checked coxTerm1
  by_cases h : knotAt knot (j+n) = knotAt knot j
  · rw [if_pos h, if_pos h]; rfl
  · rw [if_neg h, if_neg h, checkedDiv_of_ne _ _ (sub_ne_zero.mpr h)]; rfl

theorem coxTerm2Checked_eq (knot : List K) (u : K) (n j : Nat) (a : K) :
    coxTerm2Checked knot u n j a = Except.ok (coxTerm2 knot u n j a) := by
  unfold coxTerm2Checked coxTerm2
  by_cases h : knotAt knot (j+n+1) = knotAt knot (j+1)
  · rw [if_pos h, if_pos h]; rfl
  · rw [if_neg h, if_neg h, checkedDiv_of_ne _ _ (sub_ne_zero.mpr h)]; rfl

theorem diffTerm1Checked_eq (knot : List K) (c : K) (n j : Nat) (a : K) :
    diffTerm1Checked knot c n j a = Except.ok (diffTerm1 knot c n j a) := by
  unfold diffTerm1Checked diffTerm1
  by_cases h : knotAt knot (j+n) = knotAt knot j
  · rw [if_pos h, if_pos h]; rfl
  · rw [if_neg h, if_neg h, checkedDiv_of_ne _ _ (sub_ne_zero.mpr h)]; rfl

theorem diffTerm2Checked_eq (knot : List K) (c : K) (n j : Nat) (a : K) :
    diffTerm2Checked knot c n j a = Except.ok (diffTerm2 knot c n j a) := by
  unfold diffTerm2Checked diffTerm2
  by_cases h : knotAt knot (j+n+1) = knotAt knot (j+1)
  · rw [if_pos h, if_pos h]; rfl
  · rw [if_neg h, if_neg h, checkedDiv_of_ne _ _ (sub_ne_zero.mpr h)]; rfl

/-- A monadic fold whose step never fails is the pure fold. -/
theorem foldlM_ok {α β : Type} (g : β → α → Except EvalError β) (g' : β → α → β)
    (h : ∀ b a, g b a = Except.ok (g' b a)) (l : List α) (b : β) :
    l.foldlM g b = Except.ok (l.foldl g' b) := by
  induction l generalizing b with
  | nil => rfl
  | cons x xs ih =>
    rw [List.foldlM_cons, h, List.foldl_cons]
    exact ih (g' b x)

theorem coxUpdateChecked_eq (knot : List K) (u : K) (n : Nat) (ans : List K) (j : Nat) :
    coxUpdateChecked knot u n ans j = Except.ok (coxUpdate knot u n ans j) := by
  unfold coxUpdateChecked coxUpdate
  rw [coxTerm1Checked_eq]
  simp only [coxTerm2Checked_eq]
  rfl

theorem coxLevelChecked_eq (knot : List K) (order : Nat) (u : K) (ans : List K) (n : Nat) :
    coxLevelChecked knot order u ans n = Except.ok (coxLevel knot order u ans n) :=
  foldlM_ok _ _ (coxUpdateChecked_eq knot u n) _ _

theorem coxDeBoorChecked_eq (knot : List K) (order : Nat) (u : K) (from_right : Bool) :
    coxDeBoorChecked knot order u from_right = Except.ok (coxDeBoor knot order u from_right) :=
  foldlM_ok _ _ (coxLevelChecked_eq knot order u) _ _

theorem diff2UpdateChecked_eq (knot : List K) (n : Nat) (d : List K) (j : Nat) :
    diff2UpdateChecked knot n d j = Except.ok (diff2Update knot n d j) := by
  unfold diff2UpdateChecked diff2Update
  rw [diffTerm1Checked_eq]
  simp only [diffTerm2Checked_eq]
  rfl

theorem derivLevelChecked_eq (knot : List K) (order : Nat) (u : K) (s : DirState K) (n : Nat) :
    derivLevelChecked knot order u s n = Except.ok (derivLevel knot order u s n) := by
  unfold derivLevelChecked derivLevel
  simp only [coxLevelChecked_eq, diffTerm1Checked_eq, diffTerm2Checked_eq,
    foldlM_ok _ _ (diff2UpdateChecked_eq knot n)]
  by_cases h1 : n + 2 ≥ order <;> by_cases h2 : n + 1 = order <;> simp [h1, h2] <;> rfl

theorem derivDirChecked_eq (knot : List K) (order : Nat) (u : K) (from_right : Bool)
    (junk : Fin 3 → K) :
    derivDirChecked knot order u from_right junk
      = Except.ok (derivDir knot order u from_right junk) :=
  foldlM_ok _ _ (derivLevelChecked_eq knot order u) _ _

end Lemmas

theorem getLast_eq_getLastD_zero (s : List ElementPtr) (h : s ≠ []) :
    s.getLast h = s.getLastD 0 := by
  rw [List.getLastD_eq_getLast?, List.getLast?_eq_getLast s h]; rfl

theorem removeSupportLoop_eq_swapPop (el : ElementPtr) (s : List ElementPtr) (i : Nat) :
    removeSupportLoop el s i = s.take i ++ swapPop el (s.getLastD 0) (s.drop i) := by
  induction i using removeSupportLoop.induct el s with
  | case1 i h heq =>
    have heq2 : el = s[i] := heq
    rw [removeSupportLoop, dif_pos h, if_pos heq, List.drop_eq_getElem_cons h]
    simp only [swapPop, if_pos heq2]
    rw [List.set_eq_take_append_cons_drop, if_pos h,
      List.dropLast_append_of_ne_nil _ (List.cons_ne_nil _ _), getLast_eq_getLastD_zero]
  | case2 i h hne ih =>
    have hne2 : ¬ el = s[i] := hne
    rw [removeSupportLoop, dif_pos h, if_neg hne, ih, List.drop_eq_getElem_cons h]
    simp only [swapPop, if_neg hne2]
    rw [List.take_succ, List.getElem?_eq_getElem h, List.append_assoc]
    rfl
  | case3 i h =>
    rw [removeSupportLoop, dif_neg h]
    have h1 : s.length ≤ i := by omega
    rw [List.take_of_length_le h1, List.drop_of_length_le h1]
    simp [swapPop]

theorem swapPop_of_not_mem (el last : ElementPtr) (xs : List ElementPtr) (h : el ∉ xs) :
    swapPop el last xs = xs := by
  induction xs with
  | nil => rfl
  | cons x xs ih =>
    have h1 : ¬ el = x := fun e => h (by simp [e])
    have h2 : el ∉ xs := fun e => h (List.mem_cons_of_mem _ e)
    simp only [swapPop, if_neg h1, ih h2]

theorem dropLast_getLastD_cons_perm (x : ElementPtr) (xs : List ElementPtr) :
    ((xs.getLastD x) :: xs).dropLast.Perm xs := by
  rcases List.eq_nil_or_concat xs with h | ⟨ys, l, h⟩
  · subst h; simp
  · rw [List.concat_eq_append] at h
    subst h
    have h1 : (ys ++ [l]).getLastD x = l := by
      rw [List.getLastD_eq_getLast?]; simp
    rw [h1, List.dropLast_cons_of_ne_nil (by simp)]
    simp only [List.dropLast_concat]
    exact (List.perm_append_singleton l ys).symm

theorem swapPop_perm_erase (el : ElementPtr) (xs : List ElementPtr) :
    ∀ d, (swapPop el (xs.getLastD d) xs).Perm (xs.erase el) := by
  induction xs with
  | nil => intro d; simp [swapPop]
  | cons x xs ih =>
    intro d
    by_cases h : el = x
    · subst h
      simp only [swapPop, if_true, List.erase_cons_head, List.getLastD_cons]
      exact dropLast_getLastD_cons_perm el xs
    · have h2 : ¬ (x == el) = true := by simpa using (Ne.symm h)
      simp only [swapPop, if_neg h, List.getLastD_cons, List.erase_cons_tail h2]
      exact List.Perm.cons x (ih x)

/-- The loop of `removeSupport` leaves a permutation of the list with one occurrence of `el`
erased. -/
theorem removeSupportLoop_perm_erase (el : ElementPtr) (s : List ElementPtr) :
    (removeSupportLoop el s 0).Perm (s.erase el) := by
  rw [removeSupportLoop_eq_swapPop]
  simpa using swapPop_perm_erase el s 0

theorem removeSupportLoop_of_not_mem (el : ElementPtr) (s : List ElementPtr) (h : el ∉ s) :
    removeSupportLoop el s 0 = s := by
  rw [removeSupportLoop_eq_swapPop]
  simpa using swapPop_of_not_mem el (s.getLastD 0) s h

section Loop
variable {K : Type} [LinearOrderedField K]

/-- An in-place sweep `a[j] = F j a[j] a[j+1]` for `j = 0 .. m-1`. -/
theorem foldl_set_next (F : Nat → K → K → K) (m : Nat) (a0 : List K) :
    ((List.range m).foldl (fun a j => a.set j (F j (a.getD j 0) (a.getD (j+1) 0))) a0).length
      = a0.length ∧
    (∀ i, m ≤ i →
      ((List.range m).foldl (fun a j => a.set j (F j (a.getD j 0) (a.getD (j+1) 0))) a0).getD i 0
        = a0.getD i 0) ∧
    (∀ i, i < m → i < a0.length →
      ((List.range m).foldl (fun a j => a.set j (F j (a.getD j 0) (a.getD (j+1) 0))) a0).getD i 0
        = F i (a0.getD i 0) (a0.getD (i+1) 0)) := by
  induction m with
  | zero => simp
  | succ m ih =>
    obtain ⟨ih1, ih2, ih3⟩ := ih
    rw [List.range_succ, List.foldl_append]
    simp only [List.foldl_cons, List.foldl_nil]
    refine ⟨?_, ?_, ?_⟩
    · rw [List.length_set]; exact ih1
    · intro i hi
      rw [List.getD_eq_getElem?_getD, List.getElem?_set_ne (by omega),
        ← List.getD_eq_getElem?_getD]
      exact ih2 i (by omega)
    · intro i hi hlen
      by_cases h : i = m
      · subst h
        rw [List.getD_eq_getElem?_getD, List.getElem?_set_self (by rw [ih1]; exact hlen)]
        simp only [Option.getD_some]
        rw [ih2 i (le_refl i), ih2 (i+1) (by omega)]
      · rw [List.getD_eq_getElem?_getD, List.getElem?_set_ne (Ne.symm h),
          ← List.getD_eq_getElem?_getD]
        exact ih3 i (by omega) hlen

theorem coxUpdate_eq (knot : List K) (u : K) (n : Nat) (ans : List K) (j : Nat) :
    coxUpdate knot u n ans j
      = ans.set j (coxTerm1 knot u n j (ans.getD j 0) + coxTerm2 knot u n j (ans.getD (j+1) 0)) := by
  unfold coxUpdate
  by_cases h : j < ans.length
  · simp only [List.set_set]
    congr 2
    · rw [List.getD_eq_getElem?_getD, List.getElem?_set_self h]; rfl
    · rw [List.getD_eq_getElem?_getD, List.getElem?_set_ne (by omega),
        ← List.getD_eq_getElem?_getD]
  · simp only [List.set_set]
    rw [List.set_eq_of_length_le (by omega), List.set_eq_of_length_le (by omega)]


theorem coxLevel_spec (knot : List K) (order : Nat) (u : K) (ans : List K) (n : Nat) :
    (coxLevel knot order u ans n).length = ans.length ∧
    (∀ i, order - n ≤ i → (coxLevel knot order u ans n).getD i 0 = ans.getD i 0) ∧
    (∀ i, i < order - n → i < ans.length →
      (coxLevel knot order u ans n).getD i 0
        = coxTerm1 knot u n i (ans.getD i 0) + coxTerm2 knot u n i (ans.getD (i+1) 0)) := by
  have h : coxUpdate knot u n = fun a j =>
      a.set j (coxTerm1 knot u n j (a.getD j 0) + coxTerm2 knot u n j (a.getD (j+1) 0)) := by
    funext a j; exact coxUpdate_eq knot u n a j
  unfold coxLevel
  rw [h]
  exact foldl_set_next (fun j x y => coxTerm1 knot u n j x + coxTerm2 knot u n j y) _ _

theorem initAns_spec (knot : List K) (order : Nat) (u : K) (from_right : Bool) :
    (initAns knot order u from_right).length = order ∧
    ∀ j, j < order → (initAns knot order u from_right).getD j 0 = initSpan knot u from_right j := by
  constructor
  · simp [initAns]
  · intro j hj
    simp [initAns, List.getD_eq_getElem?_getD, List.getElem?_map, List.getElem?_range hj]

/-- Loop invariant of the outer loop: after the passes `n = 1 .. k` slot `j` of `ans` holds
the B-spline of degree `k` on the knots `j .. j+k+1`. -/
theorem coxLevels_spec (knot : List K) (order : Nat) (u : K) (from_right : Bool) (k : Nat) :
    ((List.range' 1 k).foldl (coxLevel knot order u) (initAns knot order u from_right)).length
      = order ∧
    ∀ j, j + k < order →
      ((List.range' 1 k).foldl (coxLevel knot order u) (initAns knot order u from_right)).getD j 0
        = bspline knot u from_right k j := by
  induction k with
  | zero =>
    simp only [List.range'_zero, List.foldl_nil]
    refine ⟨(initAns_spec knot order u from_right).1, ?_⟩
    intro j hj
    rw [(initAns_spec knot order u from_right).2 j (by omega)]
    rfl
  | succ k ih =>
    obtain ⟨ih1, ih2⟩ := ih
    rw [List.range'_1_concat, List.foldl_append]
    simp only [List.foldl_cons, List.foldl_nil]
    obtain ⟨h1, _, h3⟩ := coxLevel_spec knot order u
      ((List.range' 1 k).foldl (coxLevel knot order u) (initAns knot order u from_right)) (1 + k)
    refine ⟨by rw [h1, ih1], ?_⟩
    intro j hj
    rw [h3 j (by omega) (by rw [ih1]; omega), ih2 j (by omega), ih2 (j+1) (by omega)]
    have : 1 + k = k + 1 := by omega
    rw [this]
    rfl

theorem coxDeBoor_getD_zero (knot : List K) (order : Nat) (u : K) (from_right : Bool)
    (h : 1 ≤ order) :
    (coxDeBoor knot order u from_right).getD 0 0 = bspline knot u from_right (order - 1) 0 := by
  unfold coxDeBoor
  exact (coxLevels_spec knot order u from_right (order - 1)).2 0 (by omega)

theorem derivLevels_ans (knot : List K) (order : Nat) (u : K) (s : DirState K) (l : List Nat) :
    (l.foldl (derivLevel knot order u) s).ans = l.foldl (coxLevel knot order u) s.ans := by
  induction l generalizing s with
  | nil => rfl
  | cons n l ih =>
    rw [List.foldl_cons, List.foldl_cons, ih]
    rfl

theorem derivDir_ans (knot : List K) (order : Nat) (u : K) (from_right : Bool)
    (junk : Fin 3 → K) :
    (derivDir knot order u from_right junk).ans = coxDeBoor knot order u from_right := by
  unfold derivDir coxDeBoor
  rw [derivLevels_ans]

/-- The first derivative the loop leaves in `diff`: the difference quotient of the two
B-splines of degree `order-2`, or the initial 0 when the loop has no pass `n == order-1`. -/
theorem derivDir_diff (knot : List K) (order : Nat) (u : K) (from_right : Bool)
    (junk : Fin 3 → K) (h : 2 ≤ order) :
    (derivDir knot order u from_right junk).diff
      = diffTerm1 knot ((order - 1 : Nat) : K) (order - 1) 0 (bspline knot u from_right (order - 2) 0)
        - diffTerm2 knot ((order - 1 : Nat) : K) (order - 1) 0
            (bspline knot u from_right (order - 2) 1) := by
  obtain ⟨m, rfl⟩ : ∃ m, order = m + 2 := ⟨order - 2, by omega⟩
  unfold derivDir
  have h1 : m + 2 - 1 = m + 1 := by omega
  have h2 : m + 2 - 2 = m := by omega
  rw [h1, h2, List.range'_1_concat, List.foldl_append]
  simp only [List.foldl_cons, List.foldl_nil]
  have h3 : 1 + m + 1 = m + 2 := by omega
  simp only [derivLevel, h3, if_true, derivLevels_ans, h1]
  have hs := (coxLevels_spec knot (m+2) u from_right m).2
  rw [hs 0 (by omega), hs 1 (by omega)]
  have : 1 + m = m + 1 := by omega
  rw [this]

theorem derivDir_diff_order_le_one (knot : List K) (order : Nat) (u : K) (from_right : Bool)
    (junk : Fin 3 → K) (h : order ≤ 1) :
    (derivDir knot order u from_right junk).diff = 0 := by
  unfold derivDir
  have : order - 1 = 0 := by omega
  rw [this]
  rfl

end Loop

section Analysis

open Filter Topology

theorem knot_lt_of_lt (knot : List ℝ) (order : Nat)
    (hk : ∀ i, i < order → knotAt knot i < knotAt knot (i+1)) :
    ∀ i j, i < j → j ≤ order → knotAt knot i < knotAt knot j := by
  intro i j hij
  induction j with
  | zero => omega
  | succ j ih =>
    intro hj
    by_cases h : i = j
    · subst h; exact hk i (by omega)
    · exact lt_trans (ih (by omega) (by omega)) (hk j (by omega))

theorem eventually_lt_iff (u a : ℝ) (h : u ≠ a) :
    ∀ᶠ x in 𝓝 u, (x < a ↔ u < a) ∧ (a < x ↔ a < u) := by
  rcases lt_or_gt_of_ne h with h1 | h1
  · filter_upwards [Iio_mem_nhds h1] with x hx
    have hx' : x < a := hx
    exact ⟨⟨fun _ => h1, fun _ => hx'⟩, ⟨fun h2 => absurd h2 (not_lt.mpr hx'.le),
      fun h2 => absurd h2 (not_lt.mpr h1.le)⟩⟩
  · filter_upwards [Ioi_mem_nhds h1] with x hx
    have hx' : a < x := hx
    exact ⟨⟨fun h2 => absurd h2 (not_lt.mpr hx'.le), fun h2 => absurd h2 (not_lt.mpr h1.le)⟩,
      ⟨fun _ => h1, fun _ => hx'⟩⟩

theorem initSpan_eventually_const (knot : List ℝ) (u : ℝ) (from_right : Bool) (j : Nat)
    (h0 : u ≠ knotAt knot j) (h1 : u ≠ knotAt knot (j+1)) :
    ∀ᶠ x in 𝓝 u, initSpan knot x from_right j = initSpan knot u from_right j := by
  filter_upwards [eventually_lt_iff u _ h0, eventually_lt_iff u _ h1] with x hx0 hx1
  unfold initSpan
  have e1 : (knotAt knot j ≤ x ↔ knotAt knot j ≤ u) := by
    rw [← not_lt, ← not_lt, hx0.1]
  have e2 : (x ≤ knotAt knot (j+1) ↔ u ≤ knotAt knot (j+1)) := by
    rw [← not_lt, ← not_lt, hx1.2]
  simp only [e1, e2, hx0.2, hx1.1]

/-- The algebra behind the derivative formula of a B-spline: with the recursion and the
difference quotient of one degree lower substituted, the product rule gives the difference
quotient of the next degree. -/
theorem deriv_step_identity (u k0 k1 k2 kA kB kC a b c m : ℝ)
    (h1 : kA - k0 ≠ 0) (h2 : kB - k1 ≠ 0) (h3 : kC - k2 ≠ 0) (h4 : kB - k0 ≠ 0)
    (h5 : kC - k1 ≠ 0) :
    1 / (kB - k0) * ((u - k0) / (kA - k0) * a + (kB - u) / (kB - k1) * b)
        + (u - k0) / (kB - k0) * ((m + 1) / (kA - k0) * a - (m + 1) / (kB - k1) * b)
      + (-1 / (kC - k1) * ((u - k1) / (kB - k1) * b + (kC - u) / (kC - k2) * c)
        + (kC - u) / (kC - k1) * ((m + 1) / (kB - k1) * b - (m + 1) / (kC - k2) * c))
    = (m + 1 + 1) / (kB - k0) * ((u - k0) / (kA - k0) * a + (kB - u) / (kB - k1) * b)
      - (m + 1 + 1) / (kC - k1) * ((u - k1) / (kB - k1) * b + (kC - u) / (kC - k2) * c) := by
  field_simp
  ring

theorem bspline_hasDerivAt (knot : List ℝ) (order : Nat) (u : ℝ) (from_right : Bool)
    (hk : ∀ i j, i < j → j ≤ order → knotAt knot i < knotAt knot j)
    (hu : ∀ i, i ≤ order → u ≠ knotAt knot i) :
    ∀ n j, j + n + 1 ≤ order →
      HasDerivAt (fun x => bspline knot x from_right n j) (dBspline knot u from_right n j) u := by
  intro n
  induction n with
  | zero =>
    intro j hj
    have hc : (fun x => bspline knot x from_right 0 j)
        =ᶠ[𝓝 u] fun _ => initSpan knot u from_right j :=
      initSpan_eventually_const knot u from_right j (hu j (by omega)) (hu (j+1) (by omega))
    exact (hasDerivAt_const u _).congr_of_eventuallyEq hc
  | succ n ih =>
    intro j hj
    have d1 : knotAt knot (j + (n+1)) - knotAt knot j ≠ 0 :=
      sub_ne_zero.mpr (ne_of_gt (hk j (j+(n+1)) (by omega) (by omega)))
    have d2 : knotAt knot (j + (n+1) + 1) - knotAt knot (j+1) ≠ 0 :=
      sub_ne_zero.mpr (ne_of_gt (hk (j+1) (j+(n+1)+1) (by omega) (by omega)))
    have c1 : ¬ knotAt knot (j + (n+1)) = knotAt knot j := fun e => d1 (sub_eq_zero.mpr e)
    have c2 : ¬ knotAt knot (j + (n+1) + 1) = knotAt knot (j+1) :=
      fun e => d2 (sub_eq_zero.mpr e)
    have hj1 := ih j (by omega)
    have hj2 := ih (j+1) (by omega)
    have t1 : HasDerivAt (fun x => (x - knotAt knot j) / (knotAt knot (j+(n+1)) - knotAt knot j)
        * bspline knot x from_right n j) _ u :=
      (((hasDerivAt_id u).sub_const (knotAt knot j)).div_const _).mul hj1
    have t2 : HasDerivAt (fun x => (knotAt knot (j+(n+1)+1) - x)
        / (knotAt knot (j+(n+1)+1) - knotAt knot (j+1)) * bspline knot x from_right n (j+1)) _ u :=
      (((hasDerivAt_id u).const_sub (knotAt knot (j+(n+1)+1))).div_const _).mul hj2
    have hsum := t1.add t2
    have hfun : (fun x => bspline knot x from_right (n+1) j) = fun x =>
        (x - knotAt knot j) / (knotAt knot (j+(n+1)) - knotAt knot j)
          * bspline knot x from_right n j
        + (knotAt knot (j+(n+1)+1) - x) / (knotAt knot (j+(n+1)+1) - knotAt knot (j+1))
          * bspline knot x from_right n (j+1) := by
      funext x
      simp only [bspline, coxTerm1, coxTerm2, if_neg c1, if_neg c2]
    rw [hfun]
    refine hsum.congr_deriv ?_
    simp only [dBspline, diffTerm1, diffTerm2, if_neg c1, if_neg c2, id]
    cases n with
    | zero =>
      simp only [dBspline]
      push_cast
      field_simp
      ring
    | succ m =>
      have d3 : knotAt knot (j + (m+1)) - knotAt knot j ≠ 0 :=
        sub_ne_zero.mpr (ne_of_gt (hk j (j+(m+1)) (by omega) (by omega)))
      have d4 : knotAt knot (j + (m+1) + 1) - knotAt knot (j+1) ≠ 0 :=
        sub_ne_zero.mpr (ne_of_gt (hk (j+1) (j+(m+1)+1) (by omega) (by omega)))
      have d5 : knotAt knot (j + 1 + (m+1) + 1) - knotAt knot (j+1+1) ≠ 0 :=
        sub_ne_zero.mpr (ne_of_gt (hk (j+1+1) (j+1+(m+1)+1) (by omega) (by omega)))
      have c3 : ¬ knotAt knot (j + (m+1)) = knotAt knot j := fun e => d3 (sub_eq_zero.mpr e)
      have c4 : ¬ knotAt knot (j + (m+1) + 1) = knotAt knot (j+1) :=
        fun e => d4 (sub_eq_zero.mpr e)
      have c5 : ¬ knotAt knot (j + 1 + (m+1) + 1) = knotAt knot (j+1+1) :=
        fun e => d5 (sub_eq_zero.mpr e)
      have c4' : ¬ knotAt knot (j + 1 + (m+1)) = knotAt knot (j+1) := by
        have : j + 1 + (m+1) = j + (m+1) + 1 := by omega
        rw [this]; exact c4
      have e1 : j + 1 + (m+1) = j + (m+1) + 1 := by omega
      simp only [dBspline, bspline, diffTerm1, diffTerm2, coxTerm1, coxTerm2, if_neg c3,
        if_neg c4, if_neg c5, if_neg c4']
      have e2 : j + (m+1+1) = j + (m+1) + 1 := by omega
      simp only [e1, e2] at d1 d2 d5 ⊢
      push_cast
      generalize knotAt knot j = k0 at *
      generalize knotAt knot (j+1) = k1 at *
      generalize knotAt knot (j+1+1) = k2 at *
      generalize knotAt knot (j+(m+1)) = kA at *
      generalize knotAt knot (j+(m+1)+1) = kB at *
      generalize knotAt knot (j+(m+1)+1+1) = kC at *
      generalize bspline knot u from_right m j = a
      generalize bspline knot u from_right m (j+1) = b
      generalize bspline knot u from_right m (j+1+1) = c
      exact deriv_step_identity u k0 k1 k2 kA kB kC a b c (m : ℝ) d3 d4 d5 d1 d2

end Analysis

section Analysis2

open Filter Topology

theorem derivDir_diff_eq_dBspline (knot : List ℝ) (order : Nat) (u : ℝ) (from_right : Bool)
    (junk : Fin 3 → ℝ) (h : 1 ≤ order) :
    (derivDir knot order u from_right junk).diff = dBspline knot u from_right (order - 1) 0 := by
  by_cases h2 : 2 ≤ order
  · rw [derivDir_diff knot order u from_right junk h2]
    obtain ⟨m, rfl⟩ : ∃ m, order = m + 2 := ⟨order - 2, by omega⟩
    rfl
  · have h1 : order = 1 := by omega
    subst h1
    rw [derivDir_diff_order_le_one knot 1 u from_right junk (le_refl 1)]
    rfl

/-- One direction of the derivative evaluation: at a point of the support that is not a knot
of a strictly increasing knot vector, `diff` is the derivative of `ans[0]`. -/
theorem dir_hasDerivAt (knot : List ℝ) (order : Nat) (u : ℝ) (from_right : Bool)
    (junk : Fin 3 → ℝ)
    (hk : ∀ i, i < order → knotAt knot i < knotAt knot (i+1))
    (hin : knotAt knot 0 ≤ u ∧ u ≤ knotAt knot order)
    (hu : ∀ i, i ≤ order → u ≠ knotAt knot i) :
    HasDerivAt (fun x => (coxDeBoor knot order x from_right).getD 0 0)
      (derivDir knot order u from_right junk).diff u ∧
    knotAt knot 0 < u ∧ u < knotAt knot order := by
  have h0 : knotAt knot 0 < u := lt_of_le_of_ne hin.1 (Ne.symm (hu 0 (Nat.zero_le _)))
  have hn : u < knotAt knot order := lt_of_le_of_ne hin.2 (hu order (le_refl _))
  have ho : 1 ≤ order := by
    by_contra hc
    have : order = 0 := by omega
    rw [this] at hn
    exact absurd h0 (not_lt.mpr hn.le)
  refine ⟨?_, h0, hn⟩
  rw [derivDir_diff_eq_dBspline knot order u from_right junk ho]
  have hfun : (fun x => (coxDeBoor knot order x from_right).getD 0 0)
      = fun x => bspline knot x from_right (order - 1) 0 := by
    funext x
    exact coxDeBoor_getD_zero knot order x from_right ho
  rw [hfun]
  exact bspline_hasDerivAt knot order u from_right (knot_lt_of_lt knot order hk) hu
    (order - 1) 0 (by omega)

/-- The symmetric difference quotient converges to the derivative. -/
theorem central_difference_tendsto (g : ℝ → ℝ) (g' u : ℝ) (h : HasDerivAt g g' u) :
    Tendsto (fun e => (g (u + e) - g (u - e)) / (2 * e)) (𝓝[≠] 0) (𝓝 g') := by
  have T1 := hasDerivAt_iff_tendsto_slope_zero.mp h
  have hneg : Tendsto (fun t : ℝ => -t) (𝓝[≠] 0) (𝓝[≠] 0) := by
    apply tendsto_nhdsWithin_of_tendsto_nhds_of_eventually_within
    · have : Tendsto (fun t : ℝ => -t) (𝓝 0) (𝓝 (-0)) := (continuous_neg.tendsto 0)
      rw [neg_zero] at this
      exact this.mono_left nhdsWithin_le_nhds
    · filter_upwards [self_mem_nhdsWithin] with t ht
      simpa using ht
  have T2 := T1.comp hneg
  have T3 := (T1.add T2).div_const 2
  have e : (g' + g') / 2 = g' := by ring
  rw [e] at T3
  refine T3.congr ?_
  intro t
  simp only [Function.comp, smul_eq_mul]
  have e1 : u + -t = u - t := by ring
  rw [e1, inv_neg]
  ring

theorem evaluateDerivs_one (f : Basisfunction ℝ) (junk_u junk_v : Fin 3 → ℝ)
    (results : List ℝ) (u v : ℝ) (u_from_right v_from_right : Bool)
    (hu : ¬ (knotAt f.knot_u_ 0 > u ∨ u > knotAt f.knot_u_ f.order_u_))
    (hv : ¬ (knotAt f.knot_v_ 0 > v ∨ v > knotAt f.knot_v_ f.order_v_)) :
    f.evaluateDerivs junk_u junk_v results u v 1 u_from_right v_from_right
      = Except.ok
        [(coxDeBoor f.knot_u_ f.order_u_ u u_from_right).getD 0 0
            * (coxDeBoor f.knot_v_ f.order_v_ v v_from_right).getD 0 0 * f.weight_,
         (derivDir f.knot_u_ f.order_u_ u u_from_right junk_u).diff
            * (coxDeBoor f.knot_v_ f.order_v_ v v_from_right).getD 0 0 * f.weight_,
         (coxDeBoor f.knot_u_ f.order_u_ u u_from_right).getD 0 0
            * (derivDir f.knot_v_ f.order_v_ v v_from_right junk_v).diff * f.weight_] := by
  unfold Basisfunction.evaluateDerivs
  rw [if_neg (by decide), fillZero_resize]
  simp only [if_neg hu, if_neg hv, derivDir_ans]
  simp [List.replicate]

end Analysis2

section MeshlineLemmas

variable {K : Type} [LinearOrderedField K]

theorem MY_STUPID_FABS_eq_abs (x : K) : MY_STUPID_FABS x = |x| := by
  unfold MY_STUPID_FABS
  by_cases h : x > 0
  · rw [if_pos h, abs_of_pos h]
  · rw [if_neg h, abs_of_nonpos (not_lt.mp h)]

/-- The early-return loop of `containedIn` over the knots `0 .. order`. -/
theorem any_knot_near_iff (knot : List K) (order : Nat) (c : K) :
    (List.range (order + 1)).any
        (fun i => decide (MY_STUPID_FABS (knotAt knot i - c) < DOUBLE_TOL)) = true
      ↔ ∃ i, i ≤ order ∧ |knotAt knot i - c| < 1 / 10 ^ 14 := by
  rw [List.any_eq_true]
  constructor
  · rintro ⟨i, hi, h⟩
    rw [List.mem_range] at hi
    rw [decide_eq_true_eq, MY_STUPID_FABS_eq_abs] at h
    exact ⟨i, by omega, h⟩
  · rintro ⟨i, hi, h⟩
    refine ⟨i, List.mem_range.mpr (by omega), ?_⟩
    rw [decide_eq_true_eq, MY_STUPID_FABS_eq_abs]
    exact h

/-- The early-return loop of `operator==` over the knots `0 .. order`. -/
theorem any_knot_ne_iff (k1 k2 : List K) (order : Nat) :
    (List.range (order + 1)).any (fun i => decide (knotAt k1 i ≠ knotAt k2 i)) = true
      ↔ ¬ ∀ i, i ≤ order → knotAt k1 i = knotAt k2 i := by
  rw [List.any_eq_true]
  constructor
  · rintro ⟨i, hi, h⟩ hall
    rw [List.mem_range] at hi
    rw [decide_eq_true_eq] at h
    exact h (hall i (by omega))
  · intro h
    push_neg at h
    obtain ⟨i, hi, hne⟩ := h
    exact ⟨i, List.mem_range.mpr (by omega), by rw [decide_eq_true_eq]; exact hne⟩

theorem equals_iff (a b : Basisfunction K) :
    a.equals b = true ↔
      (∀ i, i ≤ a.order_u_ → knotAt a.knot_u_ i = knotAt b.knot_u_ i) ∧
      (∀ i, i ≤ a.order_v_ → knotAt a.knot_v_ i = knotAt b.knot_v_ i) := by
  unfold Basisfunction.equals
  by_cases h1 : ∀ i, i ≤ a.order_u_ → knotAt a.knot_u_ i = knotAt b.knot_u_ i
  · have e1 : ¬ (List.range (a.order_u_ + 1)).any
        (fun i => decide (knotAt a.knot_u_ i ≠ knotAt b.knot_u_ i)) = true := by
      rw [any_knot_ne_iff]; exact not_not.mpr h1
    rw [if_neg e1]
    by_cases h2 : ∀ i, i ≤ a.order_v_ → knotAt a.knot_v_ i = knotAt b.knot_v_ i
    · have e2 : ¬ (List.range (a.order_v_ + 1)).any
          (fun i => decide (knotAt a.knot_v_ i ≠ knotAt b.knot_v_ i)) = true := by
        rw [any_knot_ne_iff]; exact not_not.mpr h2
      rw [if_neg e2]
      exact ⟨fun _ => ⟨h1, h2⟩, fun _ => rfl⟩
    · have e2 : (List.range (a.order_v_ + 1)).any
          (fun i => decide (knotAt a.knot_v_ i ≠ knotAt b.knot_v_ i)) = true := by
        rw [any_knot_ne_iff]; exact h2
      rw [if_pos e2]
      exact ⟨fun h => absurd h (by decide), fun h => absurd h.2 h2⟩
  · have e1 : (List.range (a.order_u_ + 1)).any
        (fun i => decide (knotAt a.knot_u_ i ≠ knotAt b.knot_u_ i)) = true := by
      rw [any_knot_ne_iff]; exact h1
    rw [if_pos e1]
    exact ⟨fun h => absurd h (by decide), fun h => absurd h.1 h1⟩

theorem edge_or_and (e p x y z : Nat) :
    ((e ||| (p &&& x)) ||| (p &&& y)) ||| (p &&& z) = e ||| (p &&& (x ||| y ||| z)) := by
  apply Nat.eq_of_testBit_eq
  intro i
  simp only [Nat.testBit_lor, Nat.testBit_land]
  cases e.testBit i <;> cases p.testBit i <;> cases x.testBit i <;> cases y.testBit i <;>
    cases z.testBit i <;> rfl

/-- Components and weight after `operator+=`. -/
theorem addAssign_components (a b : Basisfunction K) (ha : a.controlpoint_.length = a.dim_) :
    (a.addAssign b).weight_ = a.weight_ + b.weight_ ∧
    (a.addAssign b).controlpoint_.length = a.dim_ ∧
    (a.addAssign b).dim_ = a.dim_ ∧
    ∀ i, i < a.dim_ →
      (a.addAssign b).controlpoint_.getD i 0
        = (a.controlpoint_.getD i 0 * a.weight_ + b.controlpoint_.getD i 0 * b.weight_)
            / (a.weight_ + b.weight_) := by
  refine ⟨rfl, ?_, rfl, ?_⟩
  · have := foldl_set_length (fun j x => (x * a.weight_ + b.controlpoint_.getD j 0 * b.weight_)
      / (a.weight_ + b.weight_)) a.controlpoint_ a.dim_
    simpa [Basisfunction.addAssign, ha] using this
  · intro i hi
    have := foldl_set_getD (fun j x => (x * a.weight_ + b.controlpoint_.getD j 0 * b.weight_)
      / (a.weight_ + b.weight_)) a.dim_ a.controlpoint_ i (by omega)
    simpa [Basisfunction.addAssign, hi] using this

theorem list_eq_of_getD (l1 l2 : List K) (n : Nat) (h1 : l1.length = n) (h2 : l2.length = n)
    (h : ∀ i, i < n → l1.getD i 0 = l2.getD i 0) : l1 = l2 := by
  apply List.ext_getElem (by rw [h1, h2])
  intro i hi1 hi2
  have := h i (by omega)
  rw [List.getD_eq_getElem?_getD, List.getD_eq_getElem?_getD, List.getElem?_eq_getElem hi1,
    List.getElem?_eq_getElem hi2] at this
  simpa using this

end MeshlineLemmas

section SplineLemmas

variable {K : Type} [LinearOrderedField K]

end SplineLemmas

theorem writeSlot_map_some {K : Type} (d : List K) (j : Nat) (x : K) (h : j < d.length) :
    writeSlot (d.map some) j x = some ((d.set j x).map some) := by
  unfold writeSlot
  rw [if_pos (by rw [List.length_map]; exact h), List.map_set]

section TrackedLemmas

variable {K : Type} [LinearOrderedField K]

theorem readSlot_map_some (d : List K) (j : Nat) (h : j < d.length) :
    readSlot (d.map some) j = some (d.getD j 0) := by
  unfold readSlot
  rw [List.get?_eq_getElem?, List.getElem?_map, List.getElem?_eq_getElem h,
    List.getD_eq_getElem?_getD, List.getElem?_eq_getElem h]
  rfl

theorem diff2Update_length (knot : List K) (n : Nat) (d : List K) (j : Nat) :
    (diff2Update knot n d j).length = d.length := by
  unfold diff2Update
  simp only [List.length_set]

theorem diff2Update_foldl_length (knot : List K) (n : Nat) (d : List K) (k : Nat) :
    ((List.range k).foldl (diff2Update knot n) d).length = d.length := by
  induction k with
  | zero => rfl
  | succ k ih =>
    rw [List.range_succ, List.foldl_append]
    simp only [List.foldl_cons, List.foldl_nil]
    rw [diff2Update_length, ih]

/-- On a buffer whose slots are all assigned the tracked update succeeds and agrees with
the update of lines 78-79. -/
theorem diff2UpdateTracked_map_some (knot : List K) (n : Nat) (d : List K) (j : Nat)
    (h : j + 1 < d.length) :
    diff2UpdateTracked knot n (d.map some) j = some ((diff2Update knot n d j).map some) := by
  have hj : j < d.length := by omega
  have e1 : (if knotAt knot (j+n) = knotAt knot j then some (0 : K)
      else (readSlot (d.map some) j).map (diffTerm1 knot (n : K) n j))
      = some (diffTerm1 knot (n : K) n j (d.getD j 0)) := by
    by_cases hc : knotAt knot (j+n) = knotAt knot j
    · rw [if_pos hc]; unfold diffTerm1; rw [if_pos hc]
    · rw [if_neg hc, readSlot_map_some d j hj]; rfl
  have hlen : j + 1 < (d.set j (diffTerm1 knot (n : K) n j (d.getD j 0))).length := by
    rw [List.length_set]; exact h
  have e2 : (if knotAt knot (j+n+1) = knotAt knot (j+1) then some (0 : K)
      else (readSlot ((d.set j (diffTerm1 knot (n : K) n j (d.getD j 0))).map some) (j+1)).map
        (diffTerm2 knot (n : K) n j))
      = some (diffTerm2 knot (n : K) n j
          ((d.set j (diffTerm1 knot (n : K) n j (d.getD j 0))).getD (j+1) 0)) := by
    by_cases hc : knotAt knot (j+n+1) = knotAt knot (j+1)
    · rw [if_pos hc]; unfold diffTerm2; rw [if_pos hc]
    · rw [if_neg hc, readSlot_map_some _ (j+1) hlen]; rfl
  unfold diff2UpdateTracked
  rw [e1]
  simp only [Option.some_bind, Option.bind_eq_bind]
  rw [writeSlot_map_some d j _ hj]
  simp only [Option.some_bind]
  rw [e2]
  simp only [Option.some_bind]
  rw [readSlot_map_some _ j (by omega)]
  simp only [Option.some_bind]
  rw [writeSlot_map_some _ j _ (by omega)]
  rfl

theorem diff2UpdateTracked_foldlM (knot : List K) (n : Nat) (d : List K) (k : Nat)
    (h : k + 1 ≤ d.length) :
    (List.range k).foldlM (diff2UpdateTracked knot n) (d.map some)
      = some (((List.range k).foldl (diff2Update knot n) d).map some) := by
  induction k with
  | zero => rfl
  | succ k ih =>
    rw [List.range_succ, List.foldlM_append, ih (by omega), List.foldl_append]
    simp only [Option.some_bind, Option.bind_eq_bind, List.foldlM_cons, List.foldlM_nil,
      List.foldl_cons, List.foldl_nil]
    rw [diff2UpdateTracked_map_some knot n _ k (by rw [diff2Update_foldl_length]; omega)]
    rfl

/-- The copy of line 75 into the three-slot buffer, tracked and untracked, when `ans` has at
least three entries. -/
theorem copy_three (ans : List K) (h : 3 ≤ ans.length) (j0 j1 j2 : K) :
    (List.range 3).foldlM (copyTracked ans) [none, none, none]
      = some ([ans.getD 0 0, ans.getD 1 0, ans.getD 2 0].map some) ∧
    (List.range 3).foldl (fun d j => d.set j (ans.getD j 0)) [j0, j1, j2]
      = [ans.getD 0 0, ans.getD 1 0, ans.getD 2 0] := by
  match ans, h with
  | x0 :: x1 :: x2 :: rest, _ =>
    constructor
    · simp [List.range, List.range.loop, copyTracked, writeSlot]
    · simp [List.range, List.range.loop]

theorem derivLevel_early (knot : List K) (order : Nat) (u : K) (s : DirState K) (n : Nat)
    (h : n + 2 < order) :
    derivLevel knot order u s n
      = { ans := coxLevel knot order u s.ans n, diff := s.diff, diff_2 := s.diff_2 } := by
  unfold derivLevel
  have h1 : ¬ n + 2 = order := by omega
  have h2 : ¬ n + 2 ≥ order := by omega
  have h3 : ¬ n + 1 = order := by omega
  simp only [if_neg h1, if_neg h2, if_neg h3]

theorem derivLevelTracked_early (knot : List K) (order : Nat) (u : K) (s : TrackedState K)
    (n : Nat) (h : n + 2 < order) :
    derivLevelTracked knot order u s n
      = some { ans := coxLevel knot order u s.ans n, diff := s.diff, diff_2 := s.diff_2 } := by
  unfold derivLevelTracked
  have h1 : ¬ n + 2 = order := by omega
  have h2 : ¬ n + 2 ≥ order := by omega
  have h3 : ¬ n + 1 = order := by omega
  simp only [if_neg h1, if_neg h2, if_neg h3]
  rfl

theorem derivLevels_early (knot : List K) (order : Nat) (u : K) (l : List Nat)
    (h : ∀ n, n ∈ l → n + 2 < order) (s : DirState K) :
    l.foldl (derivLevel knot order u) s
      = { ans := l.foldl (coxLevel knot order u) s.ans, diff := s.diff, diff_2 := s.diff_2 } := by
  induction l generalizing s with
  | nil => rfl
  | cons n l ih =>
    rw [List.foldl_cons, derivLevel_early knot order u s n (h n (List.mem_cons_self _ _)),
      ih (fun m hm => h m (List.mem_cons_of_mem _ hm))]
    rfl

theorem derivLevelsTracked_early (knot : List K) (order : Nat) (u : K) (l : List Nat)
    (h : ∀ n, n ∈ l → n + 2 < order) (s : TrackedState K) :
    l.foldlM (derivLevelTracked knot order u) s
      = some { ans := l.foldl (coxLevel knot order u) s.ans, diff := s.diff,
               diff_2 := s.diff_2 } := by
  induction l generalizing s with
  | nil => rfl
  | cons n l ih =>
    rw [List.foldlM_cons, derivLevelTracked_early knot order u s n (h n (List.mem_cons_self _ _))]
    simp only [Option.some_bind, Option.bind_eq_bind]
    rw [ih (fun m hm => h m (List.mem_cons_of_mem _ hm))]
    rfl

/-- A pass with `n ≥ order-1` (no copy) on a fully assigned buffer: the tracked pass succeeds
and agrees with the untracked one. -/
theorem derivLevelTracked_late (knot : List K) (order : Nat) (u : K) (s : DirState K) (n : Nat)
    (h1 : order ≤ n + 1) (h2 : order - n + 1 ≤ s.diff_2.length) :
    derivLevelTracked knot order u s.track n = some (derivLevel knot order u s n).track ∧
    (derivLevel knot order u s n).diff_2.length = s.diff_2.length := by
  have c1 : ¬ n + 2 = order := by omega
  have c2 : n + 2 ≥ order := by omega
  constructor
  · unfold derivLevelTracked derivLevel DirState.track
    simp only [if_neg c1, if_pos c2, Option.some_bind, Option.bind_eq_bind]
    rw [diff2UpdateTracked_foldlM knot n s.diff_2 (order - n) h2]
    rfl
  · unfold derivLevel
    simp only [if_neg c1, if_pos c2]
    rw [diff2Update_foldl_length]

/-- The pass `n == order-2` with the copy of line 75, started on an unassigned buffer: the
tracked pass succeeds and agrees with the untracked one, whatever the buffer held. -/
theorem derivLevelTracked_copy (knot : List K) (order : Nat) (u : K) (ans : List K) (df : K)
    (j0 j1 j2 : K) (n : Nat) (h1 : n + 2 = order) (h2 : 3 ≤ ans.length) :
    derivLevelTracked knot order u { ans := ans, diff := df, diff_2 := [none, none, none] } n
      = some (derivLevel knot order u { ans := ans, diff := df, diff_2 := [j0, j1, j2] } n).track ∧
    (derivLevel knot order u { ans := ans, diff := df, diff_2 := [j0, j1, j2] } n).diff_2.length
      = 3 := by
  have c2 : n + 2 ≥ order := by omega
  have e1 : order - n + 1 = 3 := by omega
  have e2 : order - n = 2 := by omega
  obtain ⟨cp1, cp2⟩ := copy_three ans h2 j0 j1 j2
  constructor
  · unfold derivLevelTracked derivLevel DirState.track
    simp only [if_pos h1, if_pos c2, e1, e2, cp1, cp2, Option.some_bind, Option.bind_eq_bind]
    rw [diff2UpdateTracked_foldlM knot n _ 2 (by simp)]
    rfl
  · unfold derivLevel
    simp only [if_pos h1, if_pos c2, e1, e2, cp2]
    rw [diff2Update_foldl_length]
    rfl

/-- For `order ≥ 3` the tracked computation of one direction succeeds and agrees with the
untracked one for every initial content of `diff_2`. -/
theorem derivDirTracked_eq (knot : List K) (order : Nat) (u : K) (from_right : Bool)
    (junk : Fin 3 → K) (h : 3 ≤ order) :
    derivDirTracked knot order u from_right
      = some (derivDir knot order u from_right junk).track ∧
    (derivDir knot order u from_right junk).diff_2.length = 3 := by
  obtain ⟨m, rfl⟩ : ∃ m, order = m + 3 := ⟨order - 3, by omega⟩
  have hr : List.range' 1 (m + 3 - 1) = List.range' 1 m ++ [1 + m] ++ [1 + (m + 1)] := by
    have : m + 3 - 1 = m + 1 + 1 := by omega
    rw [this, List.range'_1_concat, List.range'_1_concat]
  have hearly : ∀ n, n ∈ List.range' 1 m → n + 2 < m + 3 := by
    intro n hn
    rw [List.mem_range'_1] at hn
    omega
  have hA : ((List.range' 1 m).foldl (coxLevel knot (m+3) u)
      (initAns knot (m+3) u from_right)).length = m + 3 :=
    (coxLevels_spec knot (m+3) u from_right m).1
  obtain ⟨b1, b2⟩ := derivLevelTracked_copy knot (m+3) u
    ((List.range' 1 m).foldl (coxLevel knot (m+3) u) (initAns knot (m+3) u from_right)) 0
    (junk 0) (junk 1) (junk 2) (1 + m) (by omega) (by rw [hA]; omega)
  obtain ⟨c1, c2⟩ := derivLevelTracked_late knot (m+3) u
    (derivLevel knot (m+3) u
      { ans := (List.range' 1 m).foldl (coxLevel knot (m+3) u) (initAns knot (m+3) u from_right),
        diff := 0, diff_2 := [junk 0, junk 1, junk 2] } (1 + m))
    (1 + (m + 1)) (by omega) (by rw [b2]; omega)
  unfold derivDirTracked derivDir
  rw [hr]
  simp only [List.foldl_append, List.foldlM_append, List.foldl_cons, List.foldl_nil,
    List.foldlM_cons, List.foldlM_nil]
  rw [derivLevelsTracked_early knot (m+3) u _ hearly, derivLevels_early knot (m+3) u _ hearly]
  simp only [Option.some_bind, Option.bind_eq_bind, Option.pure_def, Option.bind_some]
  rw [b1]
  simp only [Option.some_bind]
  rw [c1]
  exact ⟨rfl, by rw [c2, b2]⟩

end TrackedLemmas

/-! ## Claims -/

section SupportClaims

variable {K : Type}

/-- C8: for an element `e` that does not occur in the support list, `removeSupport(e)`
leaves the support list as it was (same entries, order and length) and changes no other
field: the basis function after the call is the one before it. -/
theorem removeSupport_absent (f : Basisfunction K) (e : ElementPtr) (h : e ∉ f.support_) :
    (f.removeSupport e).2 = f ∧ (f.removeSupport e).2.support_ = f.support_ := by
  have h1 : (f.removeSupport e).2 = f := by
    unfold Basisfunction.removeSupport
    simp only [removeSupportLoop_of_not_mem e f.support_ h]
  exact ⟨h1, by rw [h1]⟩

/-- C9, amended: when the support list holds `e` at most once, `e` is no longer a member
after `removeSupport(e)`, and every other element that was a member is still a member. -/
theorem removeSupport_removes (f : Basisfunction K) (e : ElementPtr)
    (h : f.support_.count e ≤ 1) :
    e ∉ (f.removeSupport e).2.support_ ∧
    ∀ e', e' ≠ e → e' ∈ f.support_ → e' ∈ (f.removeSupport e).2.support_ := by
  have hp := removeSupportLoop_perm_erase e f.support_
  constructor
  · intro hmem
    have h1 : e ∈ f.support_.erase e := hp.mem_iff.mp hmem
    have h2 : 0 < (f.support_.erase e).count e := List.count_pos_iff.mpr h1
    rw [List.count_erase_self] at h2
    omega
  · intro e' hne hmem
    exact hp.mem_iff.mpr ((List.mem_erase_of_ne hne).mpr hmem)

end SupportClaims

section Claims

variable {K : Type} [LinearOrderedField K]

/-- C1: outside the support rectangle (u below the first or above the last u-knot, or v below
the first or above the last v-knot) the scalar `evaluate` returns 0, and the derivative
`evaluate` with `derivs ≤ 2` leaves `results` as the all-zero sequence of length
`(derivs+1)(derivs+2)/2`, whatever the direction flags. -/
theorem evaluate_outside_support (f : Basisfunction K) (junk_u junk_v : Fin 3 → K)
    (results : List K) (u v : K) (d : Nat) (u_from_right v_from_right : Bool) (hd : d ≤ 2)
    (h : u < knotAt f.knot_u_ 0 ∨ u > knotAt f.knot_u_ f.order_u_ ∨
         v < knotAt f.knot_v_ 0 ∨ v > knotAt f.knot_v_ f.order_v_) :
    f.evaluate u v u_from_right v_from_right = 0 ∧
    f.evaluateDerivs junk_u junk_v results u v d u_from_right v_from_right
      = Except.ok (List.replicate ((d+1)*(d+2)/2) 0) := by
  have hd2 : ¬ d > 2 := by omega
  constructor
  · unfold Basisfunction.evaluate
    by_cases hu : knotAt f.knot_u_ 0 > u ∨ u > knotAt f.knot_u_ f.order_u_
    · rw [if_pos hu]
    · rw [if_neg hu]
      have hv : knotAt f.knot_v_ 0 > v ∨ v > knotAt f.knot_v_ f.order_v_ := by
        rcases h with h | h | h | h
        · exact absurd (Or.inl h) hu
        · exact absurd (Or.inr h) hu
        · exact Or.inl h
        · exact Or.inr h
      rw [if_pos hv]
  · unfold Basisfunction.evaluateDerivs
    rw [if_neg hd2]
    simp only [fillZero_resize]
    by_cases hu : knotAt f.knot_u_ 0 > u ∨ u > knotAt f.knot_u_ f.order_u_
    · rw [if_pos hu]
    · rw [if_neg hu]
      have hv : knotAt f.knot_v_ 0 > v ∨ v > knotAt f.knot_v_ f.order_v_ := by
        rcases h with h | h | h | h
        · exact absurd (Or.inl h) hu
        · exact absurd (Or.inr h) hu
        · exact Or.inl h
        · exact Or.inr h
      rw [if_pos hv]

/-- Witness for C1: the corner function at `(2, 0)`, right of its support `[0,1] x [0,1]`. -/
theorem evaluate_outside_support_witness :
    cornerFunction.evaluate 2 0 true false = 0 ∧
    cornerFunction.evaluateDerivs (fun _ => 5) (fun _ => 7) [3, 4] 2 0 2 true false
      = Except.ok (List.replicate 6 0) :=
  evaluate_outside_support cornerFunction (fun _ => 5) (fun _ => 7) [3, 4] 2 0 2 true false
    (by decide) (Or.inr (Or.inl (by norm_num [cornerFunction, knotAt])))

/-- C2: for order 4 in both directions, knots `[0,0,0,0,1] x [0,0,0,0,1]` and weight 1, the
scalar `evaluate(0,0)` with both direction flags at their default `true` returns exactly 1. -/
theorem evaluate_corner : cornerFunction.evaluate 0 0 true true = 1 := by
  norm_num [Basisfunction.evaluate, cornerFunction, coxDeBoor, coxLevel, coxUpdate, coxTerm1,
    coxTerm2, initAns, initSpan, knotAt, List.range, List.range.loop, List.range']

/-- C3: for `a += b` with `b` of the same dimension and `a.weight + b.weight ≠ 0`, the new
weight is the sum of the two weights and every control-point component `i` is
`(a.cp[i]*a.weight + b.cp[i]*b.weight) / (a.weight + b.weight)`, from the values before the
call.  (`b` is passed by const reference; the embedding returns the new `a` only.) -/
theorem addAssign_spec (a b : Basisfunction K) (hdim : b.dim_ = a.dim_)
    (ha : a.controlpoint_.length = a.dim_) (hb : b.controlpoint_.length = b.dim_)
    (_hw : a.weight_ + b.weight_ ≠ 0) :
    (a.addAssign b).weight_ = a.weight_ + b.weight_ ∧
    (a.addAssign b).controlpoint_.length = a.dim_ ∧
    (a.addAssign b).dim_ = a.dim_ ∧
    ∀ i, i < a.dim_ →
      (a.addAssign b).controlpoint_.getD i 0
        = (a.controlpoint_.getD i 0 * a.weight_ + b.controlpoint_.getD i 0 * b.weight_)
            / (a.weight_ + b.weight_) := by
  refine ⟨rfl, ?_, rfl, ?_⟩
  · have := foldl_set_length (fun j x => (x * a.weight_ + b.controlpoint_.getD j 0 * b.weight_)
      / (a.weight_ + b.weight_)) a.controlpoint_ a.dim_
    simpa [Basisfunction.addAssign, ha] using this
  · intro i hi
    have := foldl_set_getD (fun j x => (x * a.weight_ + b.controlpoint_.getD j 0 * b.weight_)
      / (a.weight_ + b.weight_)) a.dim_ a.controlpoint_ i (by omega)
    simpa [Basisfunction.addAssign, hi] using this

/-- Witness for C3: control points `(0,0)` and `(2,2)`, both of weight 1, merge to the
control point `(1,1)` and weight 2. -/
theorem addAssign_spec_witness :
    ((mergeFunction [0,0] 1).addAssign (mergeFunction [2,2] 1)).weight_ = 2 ∧
    ((mergeFunction [0,0] 1).addAssign (mergeFunction [2,2] 1)).controlpoint_.length = 2 ∧
    ((mergeFunction [0,0] 1).addAssign (mergeFunction [2,2] 1)).controlpoint_.getD 0 0 = 1 ∧
    ((mergeFunction [0,0] 1).addAssign (mergeFunction [2,2] 1)).controlpoint_.getD 1 0 = 1 := by
  obtain ⟨hw, hl, _, hc⟩ := addAssign_spec (mergeFunction [0,0] 1) (mergeFunction [2,2] 1)
    rfl rfl rfl (by norm_num [mergeFunction])
  refine ⟨?_, hl, ?_, ?_⟩
  · rw [hw]; norm_num [mergeFunction]
  · rw [hc 0 (by decide)]; norm_num [mergeFunction]
  · rw [hc 1 (by decide)]; norm_num [mergeFunction]

/-- C5: the derivative `evaluate` fails exactly when `derivs > 2`; for `derivs ≤ 2` it
returns, for every basis function, point, flags and previous `results`, a sequence with
exactly `(derivs+1)(derivs+2)/2` entries. -/
theorem evaluateDerivs_fails_iff (f : Basisfunction K) (junk_u junk_v : Fin 3 → K)
    (results : List K) (u v : K) (d : Nat) (u_from_right v_from_right : Bool) :
    (2 < d ∧ f.evaluateDerivs junk_u junk_v results u v d u_from_right v_from_right
        = Except.error EvalError.derivsNotImplemented) ∨
    (d ≤ 2 ∧ ∃ r, f.evaluateDerivs junk_u junk_v results u v d u_from_right v_from_right
        = Except.ok r ∧ r.length = (d+1)*(d+2)/2 ∧ (d = 0 ∨ d = 1 ∨ d = 2) ∧
        (r.length = 1 ∨ r.length = 3 ∨ r.length = 6)) := by
  by_cases hd : 2 < d
  · left
    exact ⟨hd, by unfold Basisfunction.evaluateDerivs; rw [if_pos hd]⟩
  · right
    refine ⟨by omega, ?_⟩
    have hlen : (fillZero (resize results ((d+1)*(d+2)/2))).length = (d+1)*(d+2)/2 := by
      rw [fillZero_resize]; simp
    have hcases : d = 0 ∨ d = 1 ∨ d = 2 := by omega
    have hsz : (d+1)*(d+2)/2 = 1 ∨ (d+1)*(d+2)/2 = 3 ∨ (d+1)*(d+2)/2 = 6 := by
      rcases hcases with h | h | h <;> subst h <;> simp
    unfold Basisfunction.evaluateDerivs
    rw [if_neg hd]
    simp only []
    split_ifs <;>
    exact ⟨_, rfl, by simp [hlen], hcases, by simp [hlen, hsz]⟩

/-- C7: `addSupport(e)` returns `true` exactly when `overlaps(e)` holds, `overlaps(e)` is the
conjunction of the four strict comparisons, on `true` the support list is the old one with
`e` appended, and on `false` it is unchanged; no other field changes. -/
theorem addSupport_iff_overlaps (f : Basisfunction K) (heap : ElementPtr → Element K)
    (e : ElementPtr) :
    ((f.addSupport heap e).1 = true ↔ f.overlaps heap e = true) ∧
    (f.overlaps heap e = true ↔
      (knotAt f.knot_u_ 0 < (heap e).umax ∧ knotAt f.knot_u_ f.order_u_ > (heap e).umin ∧
       knotAt f.knot_v_ 0 < (heap e).vmax ∧ knotAt f.knot_v_ f.order_v_ > (heap e).vmin)) ∧
    ((f.addSupport heap e).1 = true →
      (f.addSupport heap e).2 = { f with support_ := f.support_ ++ [e] }) ∧
    ((f.addSupport heap e).1 = false → (f.addSupport heap e).2 = f) := by
  refine ⟨?_, ?_, ?_, ?_⟩
  · unfold Basisfunction.addSupport
    by_cases h : f.overlaps heap e = true <;> simp [h]
  · simp [Basisfunction.overlaps, and_assoc]
  · unfold Basisfunction.addSupport
    by_cases h : f.overlaps heap e = true <;> simp [h]
  · unfold Basisfunction.addSupport
    by_cases h : f.overlaps heap e = true <;> simp [h]

/-- Witness for C8: element 7 is not in the support list `[3, 5]`. -/
theorem removeSupport_absent_witness :
    ({ mergeFunction [0,0] 1 with support_ := [3, 5] }.removeSupport 7).2
        = { mergeFunction [0,0] 1 with support_ := [3, 5] } ∧
    ({ mergeFunction [0,0] 1 with support_ := [3, 5] }.removeSupport 7).2.support_ = [3, 5] :=
  removeSupport_absent { mergeFunction [0,0] 1 with support_ := [3, 5] } 7 (by decide)

/-- C9 as stated fails: `addSupport` does not look for duplicates, so two calls
`addSupport(0)` on an empty support list give `[0, 0]`, and `removeSupport(0)` then stops at
the first match and leaves `[0]`: element 0 is still a member. -/
theorem removeSupport_duplicate_counterexample :
    (mergeFunction [0,0] 1).support_ = [] ∧
    (runCalls unitHeap (mergeFunction [0,0] 1) [SupportCall.add 0, SupportCall.add 0]).support_
      = [0, 0] ∧
    ((runCalls unitHeap (mergeFunction [0,0] 1)
        [SupportCall.add 0, SupportCall.add 0]).removeSupport 0).2.support_ = [0] ∧
    (0 : ElementPtr) ∈ ((runCalls unitHeap (mergeFunction [0,0] 1)
        [SupportCall.add 0, SupportCall.add 0]).removeSupport 0).2.support_ := by
  have h1 : (runCalls unitHeap (mergeFunction [0,0] 1)
      [SupportCall.add 0, SupportCall.add 0]).support_ = [0, 0] := by
    norm_num [runCalls, applyCall, Basisfunction.addSupport, Basisfunction.overlaps, unitHeap,
      mergeFunction, knotAt]
  have h2 : ((runCalls unitHeap (mergeFunction [0,0] 1)
      [SupportCall.add 0, SupportCall.add 0]).removeSupport 0).2.support_ = [0] := by
    unfold Basisfunction.removeSupport
    simp only [h1, removeSupportLoop_eq_swapPop]
    simp [swapPop]
  exact ⟨rfl, h1, h2, by rw [h2]; simp⟩

/-- Witness for C9 amended: the support list `[3, 5]` holds 3 once. -/
theorem removeSupport_removes_witness :
    (3 : ElementPtr) ∉ ({ mergeFunction [0,0] 1 with support_ := [3, 5] }.removeSupport 3).2.support_ ∧
    ∀ e', e' ≠ 3 → e' ∈ ({ mergeFunction [0,0] 1 with support_ := [3, 5] }).support_ →
      e' ∈ ({ mergeFunction [0,0] 1 with support_ := [3, 5] }.removeSupport 3).2.support_ :=
  removeSupport_removes { mergeFunction [0,0] 1 with support_ := [3, 5] } 3 (by decide)

/-- C10: starting from an empty support list, after any finite sequence of `addSupport` and
`removeSupport` calls (over a fixed heap of elements; the calls do not touch the knots) every
element in the support list satisfies `overlaps`. -/
theorem support_invariant (heap : ElementPtr → Element K) (f : Basisfunction K)
    (calls : List SupportCall) (h : f.support_ = []) :
    ∀ e, e ∈ (runCalls heap f calls).support_ → (runCalls heap f calls).overlaps heap e = true := by
  have key : ∀ (cs : List SupportCall) (g : Basisfunction K),
      (∀ e, e ∈ g.support_ → g.overlaps heap e = true) →
      ∀ e, e ∈ (runCalls heap g cs).support_ → (runCalls heap g cs).overlaps heap e = true := by
    intro cs
    induction cs with
    | nil => intro g hg; simpa [runCalls] using hg
    | cons c cs ih =>
      intro g hg
      have hstep : ∀ e, e ∈ (applyCall heap g c).support_ →
          (applyCall heap g c).overlaps heap e = true := by
        intro e he
        cases c with
        | add el =>
          by_cases ho : g.overlaps heap el = true
          · simp only [applyCall, Basisfunction.addSupport, if_pos ho] at he ⊢
            rcases List.mem_append.mp he with h1 | h1
            · exact hg e h1
            · rw [List.mem_singleton] at h1
              rw [h1]; exact ho
          · simp only [applyCall, Basisfunction.addSupport, if_neg ho] at he ⊢
            exact hg e he
        | remove el =>
          simp only [applyCall, Basisfunction.removeSupport] at he ⊢
          have h1 : e ∈ g.support_ :=
            List.mem_of_mem_erase ((removeSupportLoop_perm_erase el g.support_).mem_iff.mp he)
          exact hg e h1
      exact ih (applyCall heap g c) hstep
  exact key calls f (by rw [h]; intro e he; cases he)

/-- Witness for C10: two additions and a removal on the function with knots
`[0,1,2,3] x [0,1,2,3]` over the unit-square heap. -/
theorem support_invariant_witness :
    (mergeFunction [0,0] 1).support_ = [] ∧
    ∀ e, e ∈ (runCalls unitHeap (mergeFunction [0,0] 1)
        [SupportCall.add 4, SupportCall.add 9, SupportCall.remove 4]).support_ →
      (runCalls unitHeap (mergeFunction [0,0] 1)
        [SupportCall.add 4, SupportCall.add 9, SupportCall.remove 4]).overlaps unitHeap e = true :=
  ⟨rfl, support_invariant unitHeap (mergeFunction [0,0] 1)
    [SupportCall.add 4, SupportCall.add 9, SupportCall.remove 4] rfl⟩

/-- C6: for every knot vector (repeated or all-equal knots included), point and flags, no
division of the scalar `evaluate` or of the derivative `evaluate` has a zero denominator:
the evaluators that check every denominator never raise `divisionByZero` and return what the
unchecked ones return, a term with a zero knot difference being replaced by 0. -/
theorem evaluate_never_divides_by_zero (f : Basisfunction K) (junk_u junk_v : Fin 3 → K)
    (results : List K) (u v : K) (d : Nat) (u_from_right v_from_right : Bool) :
    f.evaluateChecked u v u_from_right v_from_right
      = Except.ok (f.evaluate u v u_from_right v_from_right) ∧
    f.evaluateDerivsChecked junk_u junk_v results u v d u_from_right v_from_right
      = f.evaluateDerivs junk_u junk_v results u v d u_from_right v_from_right ∧
    f.evaluateChecked u v u_from_right v_from_right ≠ Except.error EvalError.divisionByZero ∧
    f.evaluateDerivsChecked junk_u junk_v results u v d u_from_right v_from_right
      ≠ Except.error EvalError.divisionByZero ∧
    (∀ (knot : List K) (x : K) (n j : Nat) (a : K), knotAt knot (j+n) = knotAt knot j →
      coxTerm1 knot x n j a = 0 ∧ diffTerm1 knot x n j a = 0) ∧
    (∀ (knot : List K) (x : K) (n j : Nat) (a : K), knotAt knot (j+n+1) = knotAt knot (j+1) →
      coxTerm2 knot x n j a = 0 ∧ diffTerm2 knot x n j a = 0) := by
  have h1 : f.evaluateChecked u v u_from_right v_from_right
      = Except.ok (f.evaluate u v u_from_right v_from_right) := by
    unfold Basisfunction.evaluateChecked Basisfunction.evaluate
    simp only [coxDeBoorChecked_eq]
    split_ifs <;> rfl
  have h2 : f.evaluateDerivsChecked junk_u junk_v results u v d u_from_right v_from_right
      = f.evaluateDerivs junk_u junk_v results u v d u_from_right v_from_right := by
    unfold Basisfunction.evaluateDerivsChecked Basisfunction.evaluateDerivs
    simp only [derivDirChecked_eq]
    split_ifs <;> rfl
  refine ⟨h1, h2, ?_, ?_, ?_, ?_⟩
  · rw [h1]; intro h; cases h
  · rw [h2]
    unfold Basisfunction.evaluateDerivs
    split_ifs <;> intro h <;> cases h
  · intro knot x n j a h
    exact ⟨by unfold coxTerm1; rw [if_pos h], by unfold diffTerm1; rw [if_pos h]⟩
  · intro knot x n j a h
    exact ⟨by unfold coxTerm2; rw [if_pos h], by unfold diffTerm2; rw [if_pos h]⟩

end Claims

section DerivativeClaim

open Filter Topology

/-- C4 as stated fails in its `v` part: for the hat function on the knots `[0,1,2] x [0,1,2]`
(strictly increasing), at `(u,v) = (1/2, 1)` (inside the support, `u` not a knot) the third
entry of the derivative evaluation is the one-sided value `-1/2`, which is not the
derivative with respect to `v` of the scalar `evaluate(1/2, .)` at `v = 1`: that function
has slope `1/2` on the left of the knot `1`. -/
theorem derivative_at_knot_counterexample :
    (∀ i, i < (hatFunction ℝ).order_u_ →
      knotAt (hatFunction ℝ).knot_u_ i < knotAt (hatFunction ℝ).knot_u_ (i+1)) ∧
    (∀ i, i < (hatFunction ℝ).order_v_ →
      knotAt (hatFunction ℝ).knot_v_ i < knotAt (hatFunction ℝ).knot_v_ (i+1)) ∧
    (knotAt (hatFunction ℝ).knot_u_ 0 ≤ (1/2 : ℝ) ∧
      (1/2 : ℝ) ≤ knotAt (hatFunction ℝ).knot_u_ (hatFunction ℝ).order_u_) ∧
    (knotAt (hatFunction ℝ).knot_v_ 0 ≤ (1 : ℝ) ∧
      (1 : ℝ) ≤ knotAt (hatFunction ℝ).knot_v_ (hatFunction ℝ).order_v_) ∧
    (∀ i, i ≤ (hatFunction ℝ).order_u_ → (1/2 : ℝ) ≠ knotAt (hatFunction ℝ).knot_u_ i) ∧
    (hatFunction ℝ).evaluateDerivs (fun _ => 0) (fun _ => 0) [] (1/2) 1 1 true true
      = Except.ok [1/2, 1, -1/2] ∧
    ¬ HasDerivAt (fun y => (hatFunction ℝ).evaluate (1/2) y true true) (-1/2) 1 := by
  have hA : ∀ y : ℝ, 0 < y → y ≤ 1 → (hatFunction ℝ).evaluate (1/2) y true true = y / 2 := by
    intro y h0 h1
    have n1 : ¬ (y < 0) := not_lt.mpr h0.le
    have n2 : ¬ (2 < y) := not_lt.mpr (by linarith)
    rcases lt_or_eq_of_le h1 with h | h
    · have n3 : ¬ (1 ≤ y) := not_le.mpr h
      simp [Basisfunction.evaluate, hatFunction, coxDeBoor, coxLevel, coxUpdate, coxTerm1,
        coxTerm2, initAns, initSpan, knotAt, List.range, List.range.loop, List.range', n1, n2, n3,
        h0.le, h]
      norm_num
      ring
    · subst h
      norm_num [Basisfunction.evaluate, hatFunction, coxDeBoor, coxLevel, coxUpdate, coxTerm1,
        coxTerm2, initAns, initSpan, knotAt, List.range, List.range.loop, List.range']
  refine ⟨?_, ?_, ?_, ?_, ?_, ?_, ?_⟩
  · intro i hi
    have hi' : i < 2 := hi
    interval_cases i <;> norm_num [hatFunction, knotAt]
  · intro i hi
    have hi' : i < 2 := hi
    interval_cases i <;> norm_num [hatFunction, knotAt]
  · norm_num [hatFunction, knotAt]
  · norm_num [hatFunction, knotAt]
  · intro i hi
    have hi' : i ≤ 2 := hi
    interval_cases i <;> norm_num [hatFunction, knotAt]
  · norm_num [Basisfunction.evaluateDerivs, hatFunction, derivDir, derivLevel, diff2Update,
      diffTerm1, diffTerm2, resize, fillZero, coxLevel, coxUpdate, coxTerm1, coxTerm2,
      initAns, initSpan, knotAt, List.range, List.range.loop, List.range', List.replicate]
  · intro h
    have hleft : HasDerivWithinAt (fun y => (hatFunction ℝ).evaluate (1/2) y true true)
        (1 / 2) (Set.Iic 1) 1 := by
      have hlin : HasDerivWithinAt (fun y : ℝ => y / 2) (1 / 2) (Set.Iic 1) 1 :=
        ((hasDerivAt_id (1 : ℝ)).div_const 2).hasDerivWithinAt
      refine hlin.congr_of_eventuallyEq ?_ (hA 1 zero_lt_one (le_refl 1))
      filter_upwards [self_mem_nhdsWithin,
        mem_nhdsWithin_of_mem_nhds (Ioi_mem_nhds (zero_lt_one : (0:ℝ) < 1))] with y hy1 hy0
      exact hA y hy0 hy1
    have huniq : UniqueDiffWithinAt ℝ (Set.Iic (1:ℝ)) 1 :=
      uniqueDiffOn_Iic 1 1 Set.right_mem_Iic
    have := huniq.eq_deriv _ h.hasDerivWithinAt hleft
    norm_num at this

/-- C4, amended: for strictly increasing knot vectors and a point `(u,v)` of the support with
`u` not a knot of `knotsU`, the entry at index 1 of `evaluate(results,u,v,1,...)` is the
derivative with respect to `u` of the scalar `evaluate(.,v)` at `u`, so the central difference
`(evaluate(u+e,v) - evaluate(u-e,v)) / (2e)` converges to it as `e` tends to 0; and when `v`
is not a knot of `knotsV` either, the entry at index 2 is the derivative with respect to `v`. -/
theorem evaluateDerivs_first_derivatives (f : Basisfunction ℝ) (junk_u junk_v : Fin 3 → ℝ)
    (results : List ℝ) (u v : ℝ) (u_from_right v_from_right : Bool)
    (hku : ∀ i, i < f.order_u_ → knotAt f.knot_u_ i < knotAt f.knot_u_ (i+1))
    (hkv : ∀ i, i < f.order_v_ → knotAt f.knot_v_ i < knotAt f.knot_v_ (i+1))
    (hu : knotAt f.knot_u_ 0 ≤ u ∧ u ≤ knotAt f.knot_u_ f.order_u_)
    (hv : knotAt f.knot_v_ 0 ≤ v ∧ v ≤ knotAt f.knot_v_ f.order_v_)
    (hnu : ∀ i, i ≤ f.order_u_ → u ≠ knotAt f.knot_u_ i) :
    ∃ r, f.evaluateDerivs junk_u junk_v results u v 1 u_from_right v_from_right = Except.ok r ∧
      HasDerivAt (fun x => f.evaluate x v u_from_right v_from_right) (r.getD 1 0) u ∧
      Tendsto (fun e => (f.evaluate (u + e) v u_from_right v_from_right
          - f.evaluate (u - e) v u_from_right v_from_right) / (2 * e)) (𝓝[≠] 0) (𝓝 (r.getD 1 0)) ∧
      ((∀ i, i ≤ f.order_v_ → v ≠ knotAt f.knot_v_ i) →
        HasDerivAt (fun y => f.evaluate u y u_from_right v_from_right) (r.getD 2 0) v) := by
  have hu' : ¬ (knotAt f.knot_u_ 0 > u ∨ u > knotAt f.knot_u_ f.order_u_) := by
    rintro (h | h)
    · exact absurd h (not_lt.mpr hu.1)
    · exact absurd h (not_lt.mpr hu.2)
  have hv' : ¬ (knotAt f.knot_v_ 0 > v ∨ v > knotAt f.knot_v_ f.order_v_) := by
    rintro (h | h)
    · exact absurd h (not_lt.mpr hv.1)
    · exact absurd h (not_lt.mpr hv.2)
  rw [evaluateDerivs_one f junk_u junk_v results u v u_from_right v_from_right hu' hv']
  refine ⟨_, rfl, ?_⟩
  simp only [List.getD_cons_succ, List.getD_cons_zero]
  have hdu : HasDerivAt (fun x => f.evaluate x v u_from_right v_from_right)
      ((derivDir f.knot_u_ f.order_u_ u u_from_right junk_u).diff
        * (coxDeBoor f.knot_v_ f.order_v_ v v_from_right).getD 0 0 * f.weight_) u := by
    obtain ⟨hd, h0, hn⟩ := dir_hasDerivAt f.knot_u_ f.order_u_ u u_from_right junk_u hku hu hnu
    have heq : (fun x => f.evaluate x v u_from_right v_from_right) =ᶠ[𝓝 u]
        (fun x => (coxDeBoor f.knot_u_ f.order_u_ x u_from_right).getD 0 0 *
          (coxDeBoor f.knot_v_ f.order_v_ v v_from_right).getD 0 0 * f.weight_) := by
      filter_upwards [Ioo_mem_nhds h0 hn] with x hx
      have hx' : ¬ (knotAt f.knot_u_ 0 > x ∨ x > knotAt f.knot_u_ f.order_u_) := by
        rintro (h | h)
        · exact absurd h (not_lt.mpr hx.1.le)
        · exact absurd h (not_lt.mpr hx.2.le)
      unfold Basisfunction.evaluate
      rw [if_neg hx', if_neg hv']
    exact ((hd.mul_const _).mul_const f.weight_).congr_of_eventuallyEq heq
  refine ⟨hdu, central_difference_tendsto
    (fun x => f.evaluate x v u_from_right v_from_right) _ u hdu, ?_⟩
  intro hnv
  obtain ⟨hd, h0, hn⟩ := dir_hasDerivAt f.knot_v_ f.order_v_ v v_from_right junk_v hkv hv hnv
  have heq : (fun y => f.evaluate u y u_from_right v_from_right) =ᶠ[𝓝 v]
      (fun y => (coxDeBoor f.knot_u_ f.order_u_ u u_from_right).getD 0 0 *
        (coxDeBoor f.knot_v_ f.order_v_ y v_from_right).getD 0 0 * f.weight_) := by
    filter_upwards [Ioo_mem_nhds h0 hn] with y hy
    have hy' : ¬ (knotAt f.knot_v_ 0 > y ∨ y > knotAt f.knot_v_ f.order_v_) := by
      rintro (h | h)
      · exact absurd h (not_lt.mpr hy.1.le)
      · exact absurd h (not_lt.mpr hy.2.le)
    unfold Basisfunction.evaluate
    rw [if_neg hu', if_neg hy']
  exact ((hd.const_mul _).mul_const f.weight_).congr_of_eventuallyEq heq

/-- Witness for C4 amended: the hat function at `(1/2, 1/2)`, where neither coordinate is a
knot. -/
theorem evaluateDerivs_first_derivatives_witness :
    ∃ r, (hatFunction ℝ).evaluateDerivs (fun _ => 0) (fun _ => 0) [] (1/2) (1/2) 1 true true
        = Except.ok r ∧
      HasDerivAt (fun x => (hatFunction ℝ).evaluate x (1/2) true true) (r.getD 1 0) (1/2) ∧
      Tendsto (fun e => ((hatFunction ℝ).evaluate (1/2 + e) (1/2) true true
          - (hatFunction ℝ).evaluate (1/2 - e) (1/2) true true) / (2 * e))
        (𝓝[≠] 0) (𝓝 (r.getD 1 0)) ∧
      HasDerivAt (fun y => (hatFunction ℝ).evaluate (1/2) y true true) (r.getD 2 0) (1/2) := by
  have hk : ∀ i, i < 2 → knotAt ([0,1,2] : List ℝ) i < knotAt ([0,1,2] : List ℝ) (i+1) := by
    intro i hi
    interval_cases i <;> norm_num [knotAt]
  have hn : ∀ i, i ≤ 2 → (1/2 : ℝ) ≠ knotAt ([0,1,2] : List ℝ) i := by
    intro i hi
    interval_cases i <;> norm_num [knotAt]
  have hin : knotAt ([0,1,2] : List ℝ) 0 ≤ (1/2 : ℝ) ∧ (1/2 : ℝ) ≤ knotAt ([0,1,2] : List ℝ) 2 := by
    norm_num [knotAt]
  obtain ⟨r, h1, h2, h3, h4⟩ := evaluateDerivs_first_derivatives (hatFunction ℝ)
    (fun _ => 0) (fun _ => 0) [] (1/2) (1/2) true true hk hk hin hin hn
  exact ⟨r, h1, h2, h3, h4 hn⟩

end DerivativeClaim

section MeshlineClaims

variable {K : Type} [LinearOrderedField K]

/-- C11: for a mesh line of either direction and an element with positive extent along the
line's spanning direction, `splits(element)` and `touches(element)` are never both true; and a
line with `start = 0`, `stop = 1` and `constPar` strictly inside `(0,1)` gives
`splits = true`, `touches = false` on the element `[0,1] x [0,1]`. -/
theorem splits_touches_element_disjoint (l : Meshline K) (el : Element K)
    (hu : l.span_u_line_ = true → el.umin < el.umax)
    (hv : l.span_u_line_ = false → el.vmin < el.vmax) :
    ¬ (l.splitsElement el = true ∧ l.touchesElement el = true) ∧
    ∀ (span : Bool) (c : K) (m : Int), 0 < c → c < 1 →
      (Meshline.mk span c 0 1 m).splitsElement (Element.mk 0 1 0 1) = true ∧
      (Meshline.mk span c 0 1 m).touchesElement (Element.mk 0 1 0 1) = false := by
  constructor
  · rintro ⟨hs, ht⟩
    unfold Meshline.splitsElement at hs
    unfold Meshline.touchesElement at ht
    cases hsp : l.span_u_line_ with
    | true =>
      have hpos := hu hsp
      simp only [hsp, if_true, decide_eq_true_eq] at hs ht
      rcases ht.2.2 with h | h
      · have := hs.2.2.1
        rw [h] at this
        exact absurd hpos (not_lt.mpr this)
      · have := hs.2.2.2
        rw [← h] at this
        exact absurd hpos (not_lt.mpr this)
    | false =>
      have hpos := hv hsp
      simp only [hsp, Bool.false_eq_true, if_false, decide_eq_true_eq] at hs ht
      rcases ht.2.2 with h | h
      · have := hs.2.2.1
        rw [h] at this
        exact absurd hpos (not_lt.mpr this)
      · have := hs.2.2.2
        rw [← h] at this
        exact absurd hpos (not_lt.mpr this)
  · intro span c m h0 h1
    cases span <;> simp [Meshline.splitsElement, Meshline.touchesElement, h0, h1]

/-- Witness for C11: the line `[0,1] x 1/2` on the element `[0,1] x [0,1]` splits it, so it
does not touch it. -/
theorem splits_touches_element_disjoint_witness :
    (Meshline.mk true (1/2) 0 1 1 : Meshline ℚ).splitsElement unitElement = true ∧
    (Meshline.mk true (1/2) 0 1 1 : Meshline ℚ).touchesElement unitElement = false := by
  have hs : (Meshline.mk true (1/2) 0 1 1 : Meshline ℚ).splitsElement unitElement = true := by
    norm_num [Meshline.splitsElement, unitElement]
  refine ⟨hs, ?_⟩
  have h := (splits_touches_element_disjoint (Meshline.mk true (1/2) 0 1 1 : Meshline ℚ)
    unitElement (fun _ => by norm_num [unitElement]) (fun _ => by norm_num [unitElement])).1
  cases ht : (Meshline.mk true (1/2) 0 1 1 : Meshline ℚ).touchesElement unitElement with
  | false => rfl
  | true => exact absurd ⟨hs, ht⟩ h

/-- C12: `containedIn(basisFunction)` is true exactly when some knot of the transverse knot
vector (all `orderV+1` entries of `knotsV` for a U-spanning line, all `orderU+1` entries of
`knotsU` otherwise) is at absolute distance less than `1e-14` from `constPar`; the result is
the same for any line and function with the same direction, `constPar`, transverse order and
transverse knots; and the transverse knots `[0, 1/2, 1, 3/2]` give `true` for `constPar = 1/2`
and `false` for `constPar = 3/10`. -/
theorem containedIn_iff (l : Meshline K) (b : Basisfunction K) :
    (l.containedIn b = true ↔
      if l.span_u_line_ = true then
        ∃ i, i ≤ b.order_v_ ∧ |knotAt b.knot_v_ i - l.const_par_| < 1 / 10 ^ 14
      else ∃ i, i ≤ b.order_u_ ∧ |knotAt b.knot_u_ i - l.const_par_| < 1 / 10 ^ 14) ∧
    (∀ (l' : Meshline K) (b' : Basisfunction K), l'.span_u_line_ = l.span_u_line_ →
      l'.const_par_ = l.const_par_ →
      (l.span_u_line_ = true → b'.order_v_ = b.order_v_ ∧ b'.knot_v_ = b.knot_v_) →
      (l.span_u_line_ = false → b'.order_u_ = b.order_u_ ∧ b'.knot_u_ = b.knot_u_) →
      l'.containedIn b' = l.containedIn b) ∧
    (Meshline.mk true (1/2) 0 1 1 : Meshline ℚ).containedIn halfKnotFunction = true ∧
    (Meshline.mk true (3/10) 0 1 1 : Meshline ℚ).containedIn halfKnotFunction = false ∧
    (Meshline.mk false (1/2) 0 1 1 : Meshline ℚ).containedIn halfKnotFunction = true ∧
    (Meshline.mk false (3/10) 0 1 1 : Meshline ℚ).containedIn halfKnotFunction = false := by
  refine ⟨?_, ?_, ?_, ?_, ?_, ?_⟩
  · unfold Meshline.containedIn
    cases hsp : l.span_u_line_ with
    | true => simp only [if_true]; exact any_knot_near_iff _ _ _
    | false => simp only [Bool.false_eq_true, if_false]; exact any_knot_near_iff _ _ _
  · intro l' b' h1 h2 h3 h4
    unfold Meshline.containedIn
    rw [h1, h2]
    cases hsp : l.span_u_line_ with
    | true =>
      obtain ⟨e1, e2⟩ := h3 hsp
      simp only [if_true, e1, e2]
    | false =>
      obtain ⟨e1, e2⟩ := h4 hsp
      simp only [Bool.false_eq_true, if_false, e1, e2]
  · norm_num [Meshline.containedIn, halfKnotFunction, MY_STUPID_FABS, DOUBLE_TOL, knotAt,
      List.range, List.range.loop]
  · norm_num [Meshline.containedIn, halfKnotFunction, MY_STUPID_FABS, DOUBLE_TOL, knotAt,
      List.range, List.range.loop]
  · norm_num [Meshline.containedIn, halfKnotFunction, MY_STUPID_FABS, DOUBLE_TOL, knotAt,
      List.range, List.range.loop]
  · norm_num [Meshline.containedIn, halfKnotFunction, MY_STUPID_FABS, DOUBLE_TOL, knotAt,
      List.range, List.range.loop]

/-- C14: for two basis functions with the same orders, `a == b` is true exactly when the
knots agree at every index `0..orderU` and `0..orderV`; the result depends on the orders and
knot vectors only; and on functions of these orders `==` is reflexive, symmetric and
transitive. -/
theorem equals_spec (a b : Basisfunction K) (hu : b.order_u_ = a.order_u_)
    (hv : b.order_v_ = a.order_v_) :
    (a.equals b = true ↔
      (∀ i, i ≤ a.order_u_ → knotAt a.knot_u_ i = knotAt b.knot_u_ i) ∧
      (∀ i, i ≤ a.order_v_ → knotAt a.knot_v_ i = knotAt b.knot_v_ i)) ∧
    (∀ a' b' : Basisfunction K, a'.order_u_ = a.order_u_ → a'.order_v_ = a.order_v_ →
      a'.knot_u_ = a.knot_u_ → a'.knot_v_ = a.knot_v_ →
      b'.knot_u_ = b.knot_u_ → b'.knot_v_ = b.knot_v_ → a'.equals b' = a.equals b) ∧
    a.equals a = true ∧
    b.equals a = a.equals b ∧
    (∀ c : Basisfunction K, c.order_u_ = a.order_u_ → c.order_v_ = a.order_v_ →
      a.equals b = true → b.equals c = true → a.equals c = true) := by
  refine ⟨equals_iff a b, ?_, ?_, ?_, ?_⟩
  · intro a' b' h1 h2 h3 h4 h5 h6
    unfold Basisfunction.equals
    rw [h1, h2, h3, h4, h5, h6]
  · rw [equals_iff]; exact ⟨fun _ _ => rfl, fun _ _ => rfl⟩
  · have hiff : b.equals a = true ↔ a.equals b = true := by
      rw [equals_iff, equals_iff, hu, hv]
      exact ⟨fun h => ⟨fun i hi => (h.1 i hi).symm, fun i hi => (h.2 i hi).symm⟩,
        fun h => ⟨fun i hi => (h.1 i hi).symm, fun i hi => (h.2 i hi).symm⟩⟩
    cases h1 : b.equals a <;> cases h2 : a.equals b <;> simp_all
  · intro c _ _ hab hbc
    rw [equals_iff] at hab hbc ⊢
    rw [hu, hv] at hbc
    exact ⟨fun i hi => (hab.1 i hi).trans (hbc.1 i hi),
      fun i hi => (hab.2 i hi).trans (hbc.2 i hi)⟩

/-- Witness for C14: the function on the knots `[0,1,2,3] x [0,1,2,3]` with two different
control points and weights. -/
theorem equals_spec_witness :
    (mergeFunction [0,0] 1).equals (mergeFunction [2,2] 5) = true ∧
    (mergeFunction [2,2] 5).equals (mergeFunction [0,0] 1)
      = (mergeFunction [0,0] 1).equals (mergeFunction [2,2] 5) := by
  have h := equals_spec (mergeFunction [0,0] 1) (mergeFunction [2,2] 5) rfl rfl
  exact ⟨h.1.mpr ⟨fun _ _ => rfl, fun _ _ => rfl⟩, h.2.2.2.1⟩

/-- C18: for a mesh line with `start ≤ stop` and a basis function whose support has positive
extent along the line's spanning direction, the disjunction
`start < support.max ∨ support.min < stop` of `touches(basisFunction)` holds, so
`touches(basisFunction)` is true exactly when `constPar` lies strictly between the first and
the last transverse knot; in particular `splits(basisFunction)` implies
`touches(basisFunction)`. -/
theorem touches_basis_iff (l : Meshline K) (b : Basisfunction K) (hs : l.start_ ≤ l.stop_)
    (hu : l.span_u_line_ = true → knotAt b.knot_u_ 0 < knotAt b.knot_u_ b.order_u_)
    (hv : l.span_u_line_ = false → knotAt b.knot_v_ 0 < knotAt b.knot_v_ b.order_v_) :
    (if l.span_u_line_ = true then
        (l.start_ < knotAt b.knot_u_ b.order_u_ ∨ knotAt b.knot_u_ 0 < l.stop_)
      else (l.start_ < knotAt b.knot_v_ b.order_v_ ∨ knotAt b.knot_v_ 0 < l.stop_)) ∧
    (l.touches b = true ↔
      if l.span_u_line_ = true then
        (knotAt b.knot_v_ 0 < l.const_par_ ∧ l.const_par_ < knotAt b.knot_v_ b.order_v_)
      else (knotAt b.knot_u_ 0 < l.const_par_ ∧ l.const_par_ < knotAt b.knot_u_ b.order_u_)) ∧
    (l.splits b = true → l.touches b = true) := by
  have hdisj : ∀ (lo hi : K), lo < hi → (l.start_ < hi ∨ lo < l.stop_) := by
    intro lo hi hlt
    by_contra hc
    push_neg at hc
    have : l.stop_ < l.start_ := lt_of_le_of_lt hc.2 (lt_of_lt_of_le hlt hc.1)
    exact absurd hs (not_le.mpr this)
  cases hsp : l.span_u_line_ with
  | true =>
    have hd := hdisj _ _ (hu hsp)
    have ht : l.touches b = true ↔
        (knotAt b.knot_v_ 0 < l.const_par_ ∧ l.const_par_ < knotAt b.knot_v_ b.order_v_) := by
      unfold Meshline.touches
      simp only [hsp, if_true, decide_eq_true_eq]
      exact ⟨fun h => ⟨h.1, h.2.1⟩, fun h => ⟨h.1, h.2, hd⟩⟩
    refine ⟨by simpa using hd, by simpa using ht, ?_⟩
    intro h
    rw [ht]
    unfold Meshline.splits at h
    simp only [hsp, if_true, decide_eq_true_eq] at h
    exact ⟨h.1, h.2.1⟩
  | false =>
    have hd := hdisj _ _ (hv hsp)
    have ht : l.touches b = true ↔
        (knotAt b.knot_u_ 0 < l.const_par_ ∧ l.const_par_ < knotAt b.knot_u_ b.order_u_) := by
      unfold Meshline.touches
      simp only [hsp, Bool.false_eq_true, if_false, decide_eq_true_eq]
      exact ⟨fun h => ⟨h.1, h.2.1⟩, fun h => ⟨h.1, h.2, hd⟩⟩
    refine ⟨by simpa using hd, by simpa using ht, ?_⟩
    intro h
    rw [ht]
    unfold Meshline.splits at h
    simp only [hsp, Bool.false_eq_true, if_false, decide_eq_true_eq] at h
    exact ⟨h.1, h.2.1⟩

/-- Witness for C18: the line `[5,6] x 1` lies beyond the support `[0,3] x [0,3]` in `u`, yet
its disjunction holds and it touches the function, as `0 < 1 < 3`. -/
theorem touches_basis_iff_witness :
    ((5 : ℚ) < knotAt (mergeFunction [0,0] 1).knot_u_ 3
      ∨ knotAt (mergeFunction [0,0] 1).knot_u_ 0 < (6 : ℚ)) ∧
    (Meshline.mk true 1 5 6 1 : Meshline ℚ).touches (mergeFunction [0,0] 1) = true := by
  have h := touches_basis_iff (Meshline.mk true 1 5 6 1 : Meshline ℚ) (mergeFunction [0,0] 1)
    (by norm_num) (fun _ => by norm_num [mergeFunction, knotAt])
    (fun _ => by norm_num [mergeFunction, knotAt])
  refine ⟨by simpa using h.1, ?_⟩
  rw [h.2.1]
  norm_num [mergeFunction, knotAt]

end MeshlineClaims

section EdgeClaims

variable {K : Type}

/-- C13: after `child.inheritEdgeTag(parent, verticalSplit, isMinor)` the child's edge flags
are its previous flags OR-ed with (parent flags AND `M`), with `M` = EAST|WEST|SOUTH for a
vertical split of the minor child, EAST|WEST|NORTH for a vertical split of the major child,
NORTH|SOUTH|WEST for a horizontal split of the minor child and NORTH|SOUTH|EAST for a
horizontal split of the major child; no other field of the child changes, every flag bit the
child had stays set, and every flag bit set afterwards was set in the child or the parent.
(The parent is read only; the embedding returns the child.) -/
theorem inheritEdgeTag_spec (pe : ParameterEdge) (child parent : Basisfunction K)
    (verticalSplit minorFunction : Bool) :
    (child.inheritEdgeTag pe parent verticalSplit minorFunction
      = { child with edge_index_ := child.edge_index_ ||| (parent.edge_index_ &&&
          (if verticalSplit then
            (if minorFunction then pe.EAST ||| pe.WEST ||| pe.SOUTH
             else pe.EAST ||| pe.WEST ||| pe.NORTH)
           else
            (if minorFunction then pe.NORTH ||| pe.SOUTH ||| pe.WEST
             else pe.NORTH ||| pe.SOUTH ||| pe.EAST))) }) ∧
    (∀ i, child.edge_index_.testBit i = true →
      (child.inheritEdgeTag pe parent verticalSplit minorFunction).edge_index_.testBit i = true) ∧
    (∀ i, (child.inheritEdgeTag pe parent verticalSplit minorFunction).edge_index_.testBit i = true →
      child.edge_index_.testBit i = true ∨ parent.edge_index_.testBit i = true) := by
  have h1 : child.inheritEdgeTag pe parent verticalSplit minorFunction
      = { child with edge_index_ := child.edge_index_ ||| (parent.edge_index_ &&&
          (if verticalSplit then
            (if minorFunction then pe.EAST ||| pe.WEST ||| pe.SOUTH
             else pe.EAST ||| pe.WEST ||| pe.NORTH)
           else
            (if minorFunction then pe.NORTH ||| pe.SOUTH ||| pe.WEST
             else pe.NORTH ||| pe.SOUTH ||| pe.EAST))) } := by
    unfold Basisfunction.inheritEdgeTag
    cases verticalSplit <;> cases minorFunction <;>
      simp only [if_true, if_false, Bool.false_eq_true, edge_or_and]
  refine ⟨h1, ?_, ?_⟩
  · intro i hi
    rw [h1]
    simp only [Nat.testBit_lor, hi, Bool.true_or]
  · intro i hi
    rw [h1] at hi
    simp only [Nat.testBit_lor, Nat.testBit_land, Bool.or_eq_true, Bool.and_eq_true] at hi
    rcases hi with h | h
    · exact Or.inl h
    · exact Or.inr h.1

end EdgeClaims

section MergeClaims

variable {K : Type} [LinearOrderedField K]

/-- C19: for three basis functions of the same dimension with positive weights, `a += b`
followed by `a += c` gives the same weight and the same control point as `a += c` followed
by `a += b`, and in both cases the weight of the result times its control point is the sum
of weight times control point over `a`, `b` and `c`, component by component. -/
theorem addAssign_order_independent (a b c : Basisfunction K)
    (_hb : b.dim_ = a.dim_) (_hc : c.dim_ = a.dim_)
    (hla : a.controlpoint_.length = a.dim_) (_hlb : b.controlpoint_.length = b.dim_)
    (_hlc : c.controlpoint_.length = c.dim_)
    (hwa : 0 < a.weight_) (hwb : 0 < b.weight_) (hwc : 0 < c.weight_) :
    ((a.addAssign b).addAssign c).weight_ = ((a.addAssign c).addAssign b).weight_ ∧
    ((a.addAssign b).addAssign c).controlpoint_ = ((a.addAssign c).addAssign b).controlpoint_ ∧
    (∀ i, i < a.dim_ →
      ((a.addAssign b).addAssign c).weight_ * ((a.addAssign b).addAssign c).controlpoint_.getD i 0
        = a.weight_ * a.controlpoint_.getD i 0 + b.weight_ * b.controlpoint_.getD i 0
          + c.weight_ * c.controlpoint_.getD i 0) ∧
    (∀ i, i < a.dim_ →
      ((a.addAssign c).addAssign b).weight_ * ((a.addAssign c).addAssign b).controlpoint_.getD i 0
        = a.weight_ * a.controlpoint_.getD i 0 + b.weight_ * b.controlpoint_.getD i 0
          + c.weight_ * c.controlpoint_.getD i 0) := by
  have key : ∀ (x y : Basisfunction K), 0 < x.weight_ → 0 < y.weight_ →
      ((a.addAssign x).addAssign y).weight_ = a.weight_ + x.weight_ + y.weight_ ∧
      ((a.addAssign x).addAssign y).controlpoint_.length = a.dim_ ∧
      ∀ i, i < a.dim_ →
        ((a.addAssign x).addAssign y).controlpoint_.getD i 0
          = (a.weight_ * a.controlpoint_.getD i 0 + x.weight_ * x.controlpoint_.getD i 0
              + y.weight_ * y.controlpoint_.getD i 0) / (a.weight_ + x.weight_ + y.weight_) := by
    intro x y hx hy
    obtain ⟨w1, l1, d1, c1⟩ := addAssign_components a x hla
    obtain ⟨w2, l2, _, c2⟩ := addAssign_components (a.addAssign x) y (by rw [l1, d1])
    rw [d1] at l2 c2
    refine ⟨by rw [w2, w1], l2, ?_⟩
    intro i hi
    rw [c2 i hi, c1 i hi, w1]
    have h1 : a.weight_ + x.weight_ ≠ 0 := ne_of_gt (add_pos hwa hx)
    have h2 : a.weight_ + x.weight_ + y.weight_ ≠ 0 := ne_of_gt (add_pos (add_pos hwa hx) hy)
    field_simp
    ring
  obtain ⟨kw1, kl1, kc1⟩ := key b c hwb hwc
  obtain ⟨kw2, kl2, kc2⟩ := key c b hwc hwb
  have hpos : a.weight_ + b.weight_ + c.weight_ ≠ 0 :=
    ne_of_gt (add_pos (add_pos hwa hwb) hwc)
  have hpos' : a.weight_ + c.weight_ + b.weight_ ≠ 0 :=
    ne_of_gt (add_pos (add_pos hwa hwc) hwb)
  refine ⟨by rw [kw1, kw2]; ring, ?_, ?_, ?_⟩
  · apply list_eq_of_getD _ _ a.dim_ kl1 kl2
    intro i hi
    rw [kc1 i hi, kc2 i hi]
    have e : a.weight_ + c.weight_ + b.weight_ = a.weight_ + b.weight_ + c.weight_ := by ring
    rw [e]
    congr 1
    ring
  · intro i hi
    rw [kw1, kc1 i hi]
    field_simp
  · intro i hi
    rw [kw2, kc2 i hi]
    field_simp
    ring

/-- Witness for C19: control points `(0,0)`, `(2,2)`, `(4,1)` with weights 1, 1, 2. -/
theorem addAssign_order_independent_witness :
    (((mergeFunction [0,0] 1).addAssign (mergeFunction [2,2] 1)).addAssign
        (mergeFunction [4,1] 2)).weight_
      = (((mergeFunction [0,0] 1).addAssign (mergeFunction [4,1] 2)).addAssign
        (mergeFunction [2,2] 1)).weight_ ∧
    (((mergeFunction [0,0] 1).addAssign (mergeFunction [2,2] 1)).addAssign
        (mergeFunction [4,1] 2)).controlpoint_
      = (((mergeFunction [0,0] 1).addAssign (mergeFunction [4,1] 2)).addAssign
        (mergeFunction [2,2] 1)).controlpoint_ :=
  let h := addAssign_order_independent (mergeFunction [0,0] 1) (mergeFunction [2,2] 1)
    (mergeFunction [4,1] 2) rfl rfl rfl rfl rfl (by norm_num [mergeFunction])
    (by norm_num [mergeFunction]) (by norm_num [mergeFunction])
  ⟨h.1, h.2.1⟩

end MergeClaims

section EvaluateClaims

variable {K : Type} [LinearOrderedField K]

/-- C15: for every basis function, point, pair of direction flags and derivative order
`d ≤ 2`, the entry at index 0 of the sequence produced by the derivative `evaluate` equals
the scalar `evaluate` with the same arguments. -/
theorem evaluateDerivs_value_eq_evaluate (f : Basisfunction K) (junk_u junk_v : Fin 3 → K)
    (results : List K) (u v : K) (d : Nat) (u_from_right v_from_right : Bool) (hd : d ≤ 2) :
    ∃ r, f.evaluateDerivs junk_u junk_v results u v d u_from_right v_from_right = Except.ok r ∧
      r.getD 0 0 = f.evaluate u v u_from_right v_from_right := by
  have hd2 : ¬ d > 2 := by omega
  unfold Basisfunction.evaluateDerivs Basisfunction.evaluate
  rw [if_neg hd2]
  simp only [fillZero_resize, derivDir_ans]
  by_cases hu : knotAt f.knot_u_ 0 > u ∨ u > knotAt f.knot_u_ f.order_u_
  · rw [if_pos hu, if_pos hu]
    refine ⟨_, rfl, ?_⟩
    have : d = 0 ∨ d = 1 ∨ d = 2 := by omega
    rcases this with h | h | h <;> subst h <;> simp [List.replicate]
  · rw [if_neg hu, if_neg hu]
    by_cases hv : knotAt f.knot_v_ 0 > v ∨ v > knotAt f.knot_v_ f.order_v_
    · rw [if_pos hv, if_pos hv]
      refine ⟨_, rfl, ?_⟩
      have : d = 0 ∨ d = 1 ∨ d = 2 := by omega
      rcases this with h | h | h <;> subst h <;> simp [List.replicate]
    · rw [if_neg hv, if_neg hv]
      refine ⟨_, rfl, ?_⟩
      have : d = 0 ∨ d = 1 ∨ d = 2 := by omega
      rcases this with h | h | h <;> subst h <;> simp [List.replicate]

/-- Witness for C15: the corner function at `(1/2, 1/3)` with two derivatives. -/
theorem evaluateDerivs_value_eq_evaluate_witness :
    ∃ r, cornerFunction.evaluateDerivs (fun _ => 5) (fun _ => 7) [3] (1/2) (1/3) 2 true false
        = Except.ok r ∧
      r.getD 0 0 = cornerFunction.evaluate (1/2) (1/3) true false :=
  evaluateDerivs_value_eq_evaluate cornerFunction (fun _ => 5) (fun _ => 7) [3] (1/2) (1/3) 2
    true false (by decide)

end EvaluateClaims

section AssignmentClaims

variable {K : Type} [LinearOrderedField K]

/-- C20: for `orderU ≥ 3` and `orderV ≥ 3` the call `evaluate(results,u,v,2,...)` reads a slot
of `diff_2u` or `diff_2v` only after assigning it, the copy at `n = order-2` staying within
the three-slot buffers and within `ans`: the evaluation that tracks these accesses succeeds
and returns what the plain evaluation returns for every initial content of the buffers, so
the result (entries 3 and 5 included) does not depend on that content.  For `order ≤ 2` no
pass of the loop performs the copy, and on the hat function (order 2) the tracked
evaluation reads an unassigned slot and entry 3 changes with the initial content. -/
theorem evaluateDerivs_definite_assignment (f : Basisfunction K) (results : List K) (u v : K)
    (u_from_right v_from_right : Bool) (hu : 3 ≤ f.order_u_) (hv : 3 ≤ f.order_v_) :
    (∀ junk_u junk_v : Fin 3 → K,
      f.evaluateDerivsTracked results u v 2 u_from_right v_from_right
        = some (f.evaluateDerivs junk_u junk_v results u v 2 u_from_right v_from_right)) ∧
    (∀ junk_u junk_v junk_u' junk_v' : Fin 3 → K,
      f.evaluateDerivs junk_u junk_v results u v 2 u_from_right v_from_right
        = f.evaluateDerivs junk_u' junk_v' results u v 2 u_from_right v_from_right) ∧
    (∀ (knot : List K) (order : Nat) (x : K) (s : DirState K) (n : Nat), order ≤ 2 → 1 ≤ n →
      (derivLevel knot order x s n).diff_2
        = if n + 2 ≥ order then (List.range (order - n)).foldl (diff2Update knot n) s.diff_2
          else s.diff_2) ∧
    (hatFunction ℚ).evaluateDerivsTracked [] (1/2) (1/2) 2 true true = none ∧
    (hatFunction ℚ).evaluateDerivs (fun _ => 0) (fun _ => 0) [] (1/2) (1/2) 2 true true
      = Except.ok [1/4, 1/2, 1/2, 0, 1, 0] ∧
    (hatFunction ℚ).evaluateDerivs (fun i => ((i : Nat) : ℚ)) (fun _ => 0) [] (1/2) (1/2) 2
        true true
      = Except.ok [1/4, 1/2, 1/2, -1/2, 1, 0] := by
  have h1 : ∀ junk_u junk_v : Fin 3 → K,
      f.evaluateDerivsTracked results u v 2 u_from_right v_from_right
        = some (f.evaluateDerivs junk_u junk_v results u v 2 u_from_right v_from_right) := by
    intro junk_u junk_v
    obtain ⟨eu, lu⟩ := derivDirTracked_eq f.knot_u_ f.order_u_ u u_from_right junk_u hu
    obtain ⟨ev, lv⟩ := derivDirTracked_eq f.knot_v_ f.order_v_ v v_from_right junk_v hv
    have ru := readSlot_map_some (derivDir f.knot_u_ f.order_u_ u u_from_right junk_u).diff_2 0
      (by rw [lu]; decide)
    have rv := readSlot_map_some (derivDir f.knot_v_ f.order_v_ v v_from_right junk_v).diff_2 0
      (by rw [lv]; decide)
    unfold Basisfunction.evaluateDerivsTracked Basisfunction.evaluateDerivs
    by_cases c1 : knotAt f.knot_u_ 0 > u ∨ u > knotAt f.knot_u_ f.order_u_
    · simp [c1]
    · by_cases c2 : knotAt f.knot_v_ 0 > v ∨ v > knotAt f.knot_v_ f.order_v_
      · simp [c1, c2]
      · simp only [if_neg c1, if_neg c2, eu, ev, DirState.track, Option.some_bind,
          Option.bind_eq_bind, ru, rv]
        simp
  refine ⟨h1, ?_, ?_, ?_, ?_, ?_⟩
  · intro junk_u junk_v junk_u' junk_v'
    have e := (h1 junk_u junk_v).symm.trans (h1 junk_u' junk_v')
    exact Option.some.inj e
  · intro knot order x s n ho hn
    unfold derivLevel
    have c : ¬ n + 2 = order := by omega
    simp only [if_neg c]
  · norm_num [Basisfunction.evaluateDerivsTracked, hatFunction, derivDirTracked,
      derivLevelTracked, diff2UpdateTracked, copyTracked, readSlot, writeSlot, diffTerm1,
      diffTerm2, resize, fillZero, coxLevel, coxUpdate, coxTerm1, coxTerm2, initAns, initSpan,
      knotAt, List.range, List.range.loop, List.range', List.replicate]
  · norm_num [Basisfunction.evaluateDerivs, derivDir, derivLevel, diff2Update, hatFunction,
      diffTerm1, diffTerm2, resize, fillZero, coxLevel, coxUpdate, coxTerm1, coxTerm2, initAns,
      initSpan, knotAt, List.range, List.range.loop, List.range', List.replicate]
  · norm_num [Basisfunction.evaluateDerivs, derivDir, derivLevel, diff2Update, hatFunction,
      diffTerm1, diffTerm2, resize, fillZero, coxLevel, coxUpdate, coxTerm1, coxTerm2, initAns,
      initSpan, knotAt, List.range, List.range.loop, List.range', List.replicate]

/-- Witness for C20: the function of order 3 on the knots `[0,1,2,3] x [0,1,2,3]` at
`(3/2, 3/2)`, for two different initial contents of the buffers. -/
theorem evaluateDerivs_definite_assignment_witness :
    (mergeFunction [0,0] 1).evaluateDerivsTracked [] (3/2) (3/2) 2 true true
      = some ((mergeFunction [0,0] 1).evaluateDerivs (fun _ => 9) (fun _ => 8) []
          (3/2) (3/2) 2 true true) ∧
    (mergeFunction [0,0] 1).evaluateDerivs (fun _ => 9) (fun _ => 8) [] (3/2) (3/2) 2 true true
      = (mergeFunction [0,0] 1).evaluateDerivs (fun _ => 0) (fun _ => 1) []
          (3/2) (3/2) 2 true true :=
  let h := evaluateDerivs_definite_assignment (mergeFunction [0,0] 1) [] (3/2) (3/2) true true
    (by decide) (by decide)
  ⟨h.1 (fun _ => 9) (fun _ => 8), h.2.1 (fun _ => 9) (fun _ => 8) (fun _ => 0) (fun _ => 1)⟩

end AssignmentClaims

end LR
